import Mathlib

/-!
The Tailscale Android shell (`cmd/tailscale`): a shallow embedding.

The Go sources `cmd/tailscale/main.go` and `cmd/tailscale/callbacks.go` are
translated function by function.  The host (the JVM reached through JNI) is a
parameter: a `Host` answers every JNI method call, and every translated
function returns a `Run`: the host calls it made, the lines it logged and
whether it returned or panicked.  Go strings that are only passed along are
Lean `String`s; strings that are parsed are taken apart as `List Char`.
-/

namespace Tailscale

/-! ## The JNI boundary -/

/-- A `jni.Object`: an opaque host reference; `0` is the null reference. -/
abbrev Object := Nat

/-- A Go `error` coming back from a host call. -/
abbrev Error := String

/-- A `jni.Value`: one argument of a host method call. -/
inductive Value where
  | obj (o : Object)
  | bool (b : Bool)
  | str (s : String)
  | int (i : Int)
deriving DecidableEq, Repr

/-- One JNI method call: target object, method name, signature, arguments. -/
structure Call where
  obj : Object
  name : String
  sig : String
  args : List Value
deriving DecidableEq, Repr

/-- What the host answers to each kind of JNI call: the returned value together
with the error (`none` is Go's `nil` error).  Go returns both, so both are kept. -/
structure Host where
  callVoid : Call → Option Error
  callBoolean : Call → Bool × Option Error
  callInt : Call → Int × Option Error
  callString : Call → String × Option Error
  callBytes : Call → List Nat × Option Error
  callObject : Call → Object × Option Error

/-- The value carried by a Go `panic`. -/
inductive PanicValue where
  | msg (s : String)
  | err (e : Error)
deriving DecidableEq, Repr

/-- How a call ends: it returns a value, it panics, or its goroutine stays parked
on a channel operation that cannot proceed. -/
inductive Outcome (α : Type) where
  | ret (a : α)
  | panic (v : PanicValue)
  | blocked
deriving DecidableEq, Repr

/-- The observable behaviour of a translated function: the host calls made (in
order), the lines passed to `log.Printf`, and the outcome. -/
structure Run (α : Type) where
  calls : List Call
  log : List String
  out : Outcome α
deriving DecidableEq, Repr

/-- Return without touching the host. -/
def Run.pure {α : Type} (a : α) : Run α := ⟨[], [], .ret a⟩

/-- Sequencing: a panic stops the rest, otherwise calls and log lines accumulate. -/
def Run.bind {α β : Type} (r : Run α) (f : α → Run β) : Run β :=
  match r.out with
  | .ret a => ⟨r.calls ++ (f a).calls, r.log ++ (f a).log, (f a).out⟩
  | .panic v => ⟨r.calls, r.log, .panic v⟩
  | .blocked => ⟨r.calls, r.log, .blocked⟩

/-- Go `panic(v)`. -/
def Run.panicWith {α : Type} (v : PanicValue) : Run α := ⟨[], [], .panic v⟩

/-- One JNI call performed through `jni.Do`. -/
def Run.call {α : Type} (c : Call) (answer : α) : Run α := ⟨[c], [], .ret answer⟩

/-- Go `log.Printf`, one line. -/
def Run.logLine (line : String) : Run Unit := ⟨[], [line], .ret ()⟩

/-- `fatalErr`: despite its name it only logs (`// TODO: expose in UI.`). -/
def fatalErr (err : Error) : Run Unit :=
  Run.logLine ("fatal error: " ++ err)

/-- `App.callVoidMethod`: panics on the null object, otherwise one void call. -/
def callVoidMethod (h : Host) (obj : Object) (name sig : String) (args : List Value) :
    Run (Option Error) :=
  if obj = 0 then Run.panicWith (.msg "invalid object")
  else Run.call ⟨obj, name, sig, args⟩ (h.callVoid ⟨obj, name, sig, args⟩)

/-- `App.pushNotify`: calls `notify(title, msg)` on the service object. -/
def pushNotify (h : Host) (service : Object) (title msg : String) : Run (Option Error) :=
  Run.call ⟨service, "notify", "(Ljava/lang/String;Ljava/lang/String;)V", [.str title, .str msg]⟩
    (h.callVoid ⟨service, "notify", "(Ljava/lang/String;Ljava/lang/String;)V",
      [.str title, .str msg]⟩)

/-! ## Time -/

/-! A `time.Duration` is a signed 64-bit count of nanoseconds: an `Int` kept in
the `int64` range. -/

/-- The smallest `time.Duration`. -/
def minDuration : Int := -9223372036854775808

/-- The largest `time.Duration`. -/
def maxDuration : Int := 9223372036854775807

/-- Two's-complement wrap of an integer into the `int64` range. -/
def wrap64 (x : Int) : Int := (x + 9223372036854775808) % 18446744073709551616 - 9223372036854775808

/-- Go `time.Minute`. -/
def Minute : Int := 60000000000

/-- Go `time.Hour`. -/
def Hour : Int := 3600000000000

/-- A `time.Time` as an instant: nanoseconds since the zero `Time`
(January 1, year 1, 00:00 UTC). -/
structure Time where
  ns : Int
deriving DecidableEq, Repr

/-- Go `Time.IsZero`. -/
def Time.IsZero (t : Time) : Bool := t.ns == 0

/-- Go `Time.Sub`: the difference, saturated to the `Duration` range. -/
def Time.Sub (t u : Time) : Int :=
  if t.ns - u.ns < minDuration then minDuration
  else if maxDuration < t.ns - u.ns then maxDuration
  else t.ns - u.ns

/-- Go `time.Until(t)` when the clock reads `now`. -/
def Until (now t : Time) : Int := t.Sub now

/-- The `aday` constant of `notifyExpiry`. -/
def aday : Int := 24 * Hour

/-- The `soon` constant of `notifyExpiry`. -/
def soon : Int := 5 * Minute

/-- The `msg` constant of `notifyExpiry`. -/
def expiryMsg : String := "Reauthenticate to maintain the connection to your network."

/-- The tail of `notifyExpiry` after the `switch`: push the alert, log a failure
through `fatalErr`, return the timer `t`. -/
def notifyExpiryPush (h : Host) (service : Object) (title : String) (t : Option Int) :
    Run (Option Int) :=
  (pushNotify h service title expiryMsg).bind fun err =>
    match err with
    | some e => (fatalErr e).bind fun _ => Run.pure t
    | none => Run.pure t

/-- `App.notifyExpiry`.  A `*time.Timer` is modelled by its duration
(`time.NewTimer(d)` is `some d`, the `nil` timer is `none`); `now` is what
`time.Now()` reads inside `time.Until`. -/
def notifyExpiry (h : Host) (service : Object) (now expiry : Time) : Run (Option Int) :=
  if expiry.IsZero then Run.pure none
  else
    if Until now expiry ≤ 0 then
      notifyExpiryPush h service "Your authentication has expired!" none
    else if Until now expiry ≤ soon then
      notifyExpiryPush h service "Your authentication expires soon!" (some (Until now expiry))
    else if Until now expiry ≤ aday then
      notifyExpiryPush h service "Your authentication expires in a day."
        (some (wrap64 (Until now expiry - soon)))
    else Run.pure (some (wrap64 (Until now expiry - aday)))

/-- The alerts a run pushed to the user: the titles of its `notify` calls. -/
def Run.alerts {α : Type} (r : Run α) : List String :=
  r.calls.filterMap fun c =>
    match c.name, c.args with
    | "notify", [.str title, _] => some title
    | _, _ => none

/-- A host on which every call succeeds with a default answer. -/
def Host.ok : Host where
  callVoid := fun _ => none
  callBoolean := fun _ => (false, none)
  callInt := fun _ => (0, none)
  callString := fun _ => ("", none)
  callBytes := fun _ => ([], none)
  callObject := fun _ => (1, none)

/-- A host on which every call fails with the error `e`. -/
def Host.failing (e : Error) : Host where
  callVoid := fun _ => some e
  callBoolean := fun _ => (false, some e)
  callInt := fun _ => (0, some e)
  callString := fun _ => ("", some e)
  callBytes := fun _ => ([], some e)
  callObject := fun _ => (0, some e)

/-- A sample instant used in the examples: 2021-01-01 00:00 UTC. -/
def T0 : Time := ⟨63745056000000000000⟩

/-! ## Channels -/

/-! A channel made by `make(chan T, 1)` is modelled by its buffer, an `Option T`:
`none` is the empty channel, `some v` the channel holding `v`.  An unbuffered
channel `make(chan T)` is modelled by the values of the senders parked on it. -/

/-- The statement `select { case ch <- v: default: }` on a one-slot channel. -/
def Chan1.trySend {α : Type} (ch : Option α) (v : α) : Option α :=
  match ch with
  | none => some v
  | some w => some w

/-- The statement `select { case <-ch: default: }` on a one-slot channel. -/
def Chan1.tryRecv {α : Type} (ch : Option α) : Option α :=
  match ch with
  | none => none
  | some _ => none

/-- The blocking send `ch <- v` on a one-slot channel. -/
def Chan1.send {α : Type} (ch : Option α) (v : α) : Outcome (Option α) :=
  match ch with
  | none => .ret (some v)
  | some _ => .blocked

/-- The blocking receive `<-ch` on a one-slot channel: the value and the channel
left behind. -/
def Chan1.recv {α : Type} (ch : Option α) : Outcome (α × Option α) :=
  match ch with
  | none => .blocked
  | some v => .ret (v, none)

/-- An `*ipn.Prefs` preference snapshot (a non-nil pointer: `setPrefs` dereferences
it first thing).  Only `WantRunning` is read here; `rest` stands for the other
fields. -/
structure Prefs where
  WantRunning : Bool
  rest : Nat
deriving DecidableEq, Repr

/-- The `App` struct: the application context and its three channels (the JVM
pointer, the state store and the log id take no part in what follows). -/
structure App where
  appCtx : Object
  prefs : Option Prefs
  browseURLs : Option String
  invalidates : Option Unit
deriving DecidableEq, Repr

/-- The package-level channels of `callbacks.go`. -/
structure Globals where
  onVPNPrepared : Option Unit
  onVPNClosed : Option Unit
  onVPNRevoked : Option Unit
  onConnect : List Object
  onDisconnect : List Object
  onConnectivityChange : Option Bool
  onWriteStorageGranted : Option Unit
deriving DecidableEq, Repr

/-- All channels empty. -/
def Globals.empty : Globals := ⟨none, none, none, [], [], none, none⟩

/-- `notifyVPNPrepared`. -/
def notifyVPNPrepared (g : Globals) : Globals :=
  { g with onVPNPrepared := Chan1.trySend g.onVPNPrepared () }

/-- `notifyVPNRevoked`. -/
def notifyVPNRevoked (g : Globals) : Globals :=
  { g with onVPNRevoked := Chan1.trySend g.onVPNRevoked () }

/-- `notifyVPNClosed`. -/
def notifyVPNClosed (g : Globals) : Globals :=
  { g with onVPNClosed := Chan1.trySend g.onVPNClosed () }

/-- `Java_com_tailscale_ipn_App_onVPNPrepared`. -/
def Java_com_tailscale_ipn_App_onVPNPrepared (g : Globals) : Globals :=
  notifyVPNPrepared g

/-- `Java_com_tailscale_ipn_App_onWriteStorageGranted`. -/
def Java_com_tailscale_ipn_App_onWriteStorageGranted (g : Globals) : Globals :=
  { g with onWriteStorageGranted := Chan1.trySend g.onWriteStorageGranted () }

/-- `Java_com_tailscale_ipn_IPNService_connect`: the sender parks on the unbuffered
channel with a global reference to `this`. -/
def Java_com_tailscale_ipn_IPNService_connect (g : Globals) (this : Object) : Globals :=
  { g with onConnect := g.onConnect ++ [this] }

/-- `Java_com_tailscale_ipn_IPNService_disconnect`. -/
def Java_com_tailscale_ipn_IPNService_disconnect (g : Globals) (this : Object) : Globals :=
  { g with onDisconnect := g.onDisconnect ++ [this] }

/-- `Java_com_tailscale_ipn_App_onConnectivityChanged`: drain, then send. -/
def Java_com_tailscale_ipn_App_onConnectivityChanged (g : Globals) (connected : Bool) :
    Outcome Globals :=
  match Chan1.send (Chan1.tryRecv g.onConnectivityChange) connected with
  | .ret ch => .ret { g with onConnectivityChange := ch }
  | .panic v => .panic v
  | .blocked => .blocked

/-- `App.invalidate`. -/
def invalidate (a : App) : App :=
  { a with invalidates := Chan1.trySend a.invalidates () }

/-- `App.setURL`: drain, then send. -/
def setURL (a : App) (url : String) : Outcome App :=
  match Chan1.send (Chan1.tryRecv a.browseURLs) url with
  | .ret ch => .ret { a with browseURLs := ch }
  | .panic v => .panic v
  | .blocked => .blocked

/-- `App.setPrefs`: report the tile status to the host (a failure is only logged),
then drain and send on `a.prefs`.  The run returns the `App` after the send. -/
def setPrefs (h : Host) (a : App) (prefs : Prefs) : Run App :=
  (callVoidMethod h a.appCtx "setTileStatus" "(Z)V" [.bool prefs.WantRunning]).bind fun err =>
    (match err with
      | some e => fatalErr e
      | none => Run.pure ()).bind fun _ =>
      match Chan1.send (Chan1.tryRecv a.prefs) prefs with
      | .ret ch => Run.pure { a with prefs := ch }
      | .panic v => Run.panicWith v
      | .blocked => ⟨[], [], .blocked⟩

/-! ## The UI loop -/

/-- The state `runUI` works on: the `App` and the package-level channels. -/
structure Bridge where
  app : App
  g : Globals
deriving DecidableEq, Repr

/-- The six cases of the `select` in `runUI`, in source order. -/
inductive RunUICase where
  | onVPNClosed
  | prefs
  | browseURLs
  | onVPNPrepared
  | onVPNRevoked
  | invalidates
deriving DecidableEq, Repr

/-- Where control is after one pass through the body of `for { select { ... } }`:
back at the top of the loop, or out of `runUI` with its `error` result. -/
inductive LoopState where
  | Running
  | Returned (err : Option Error)
deriving DecidableEq, Repr

/-- One iteration of the loop of `runUI` in which `select` picks case `c`.
`none`: case `c` is not ready, `select` cannot pick it.  Every case body is
empty, so the iteration only receives. -/
def runUIIter (c : RunUICase) (s : Bridge) : Option (LoopState × Bridge) :=
  match c with
  | .onVPNClosed =>
    match s.g.onVPNClosed with
    | some _ => some (.Running, { s with g := { s.g with onVPNClosed := none } })
    | none => none
  | .prefs =>
    match s.app.prefs with
    | some _ => some (.Running, { s with app := { s.app with prefs := none } })
    | none => none
  | .browseURLs =>
    match s.app.browseURLs with
    | some _ => some (.Running, { s with app := { s.app with browseURLs := none } })
    | none => none
  | .onVPNPrepared =>
    match s.g.onVPNPrepared with
    | some _ => some (.Running, { s with g := { s.g with onVPNPrepared := none } })
    | none => none
  | .onVPNRevoked =>
    match s.g.onVPNRevoked with
    | some _ => some (.Running, { s with g := { s.g with onVPNRevoked := none } })
    | none => none
  | .invalidates =>
    match s.app.invalidates with
    | some _ => some (.Running, { s with app := { s.app with invalidates := none } })
    | none => none

/-- The step relation of `runUI`: some case of the `select` is ready and is taken. -/
def runUIStep (s : Bridge) (l : LoopState) (s2 : Bridge) : Prop :=
  ∃ c, runUIIter c s = some (l, s2)

/-! ## The platform query facade -/

/-- `App.openURI`: the file descriptor of the opened file (`none` is the nil
`*os.File`) and the error. -/
def openURI (h : Host) (a : App) (uri mode : String) : Run (Option Int × Option Error) :=
  (Run.call ⟨a.appCtx, "openUri", "(Ljava/lang/String;Ljava/lang/String;)I", [.str uri, .str mode]⟩
    (h.callInt ⟨a.appCtx, "openUri", "(Ljava/lang/String;Ljava/lang/String;)I",
      [.str uri, .str mode]⟩)).bind fun r =>
    match r.2 with
    | some e => Run.pure (none, some e)
    | none => Run.pure (some r.1, none)

/-- `App.isChromeOS`: panics with the error of the host call. -/
def isChromeOS (h : Host) (a : App) : Run Bool :=
  (Run.call ⟨a.appCtx, "isChromeOS", "()Z", []⟩
    (h.callBoolean ⟨a.appCtx, "isChromeOS", "()Z", []⟩)).bind fun r =>
    match r.2 with
    | some e => Run.panicWith (.err e)
    | none => Run.pure r.1

/-- `App.hostname`. -/
def hostname (h : Host) (a : App) : Run String :=
  (Run.call ⟨a.appCtx, "getHostname", "()Ljava/lang/String;", []⟩
    (h.callString ⟨a.appCtx, "getHostname", "()Ljava/lang/String;", []⟩)).bind fun r =>
    match r.2 with
    | some e => Run.panicWith (.err e)
    | none => Run.pure r.1

/-- `App.osVersion`. -/
def osVersion (h : Host) (a : App) : Run String :=
  (Run.call ⟨a.appCtx, "getOSVersion", "()Ljava/lang/String;", []⟩
    (h.callString ⟨a.appCtx, "getOSVersion", "()Ljava/lang/String;", []⟩)).bind fun r =>
    match r.2 with
    | some e => Run.panicWith (.err e)
    | none => Run.pure r.1

/-- `App.modelName`. -/
def modelName (h : Host) (a : App) : Run String :=
  (Run.call ⟨a.appCtx, "getModelName", "()Ljava/lang/String;", []⟩
    (h.callString ⟨a.appCtx, "getModelName", "()Ljava/lang/String;", []⟩)).bind fun r =>
    match r.2 with
    | some e => Run.panicWith (.err e)
    | none => Run.pure r.1

/-- The `ipn.State` of the backend. -/
inductive State where
  | NoState
  | InUseOtherUser
  | NeedsLogin
  | NeedsMachineAuth
  | Stopped
  | Starting
  | Running
deriving DecidableEq, Repr

/-- `ExitStatus`. -/
inductive ExitStatus where
  | ExitNone
  | ExitOffline
  | ExitOnline
deriving DecidableEq, Repr

/-- `Peer`. -/
structure Peer where
  Label : String
  Online : Bool
  ID : String
deriving DecidableEq, Repr

/-- `App.updateNotification`: the returned value is the `error`. -/
def updateNotification (h : Host) (service : Object) (state : State) (exitStatus : ExitStatus)
    (exit : Peer) : Run (Option Error) :=
  match state with
  | .Starting =>
    Run.call ⟨service, "updateStatusNotification", "(Ljava/lang/String;Ljava/lang/String;)V",
        [.str "Connecting...", .str ""]⟩
      (h.callVoid ⟨service, "updateStatusNotification", "(Ljava/lang/String;Ljava/lang/String;)V",
        [.str "Connecting...", .str ""]⟩)
  | .Running =>
    Run.call ⟨service, "updateStatusNotification", "(Ljava/lang/String;Ljava/lang/String;)V",
        [.str "Connected", .str (match exitStatus with
          | .ExitOnline => "Exit node: " ++ exit.Label
          | _ => "")]⟩
      (h.callVoid ⟨service, "updateStatusNotification", "(Ljava/lang/String;Ljava/lang/String;)V",
        [.str "Connected", .str (match exitStatus with
          | .ExitOnline => "Exit node: " ++ exit.Label
          | _ => "")]⟩)
  | _ => Run.pure none

/-- `App.notifyFile`. -/
def notifyFile (h : Host) (a : App) (uri msg : String) : Run (Option Error) :=
  Run.call ⟨a.appCtx, "notifyFile", "(Ljava/lang/String;Ljava/lang/String;)V", [.str uri, .str msg]⟩
    (h.callVoid ⟨a.appCtx, "notifyFile", "(Ljava/lang/String;Ljava/lang/String;)V",
      [.str uri, .str msg]⟩)

/-- `App.isTV`: an error of the host call goes to `fatalErr`, then the boolean the
call left behind is returned. -/
def isTV (h : Host) (a : App) : Run Bool :=
  (Run.call ⟨a.appCtx, "isTV", "()Z", []⟩ (h.callBoolean ⟨a.appCtx, "isTV", "()Z", []⟩)).bind fun r =>
    (match r.2 with
      | some e => fatalErr e
      | none => Run.pure ()).bind fun _ => Run.pure r.1

/-- `releaseCertFingerprint`. -/
def releaseCertFingerprint : String :=
  "86:9D:11:8B:63:1E:F8:35:C6:D9:C2:66:53:BC:28:22:2F:B8:C1:AE"

/-- One lower-case hexadecimal digit. -/
def hexDigit (n : Nat) : Char :=
  if n < 10 then Char.ofNat (48 + n) else Char.ofNat (87 + n)

/-- Go `fmt.Sprintf("%x", b)` on a byte slice: two lower-case digits per byte. -/
def hexString (b : List Nat) : String :=
  String.mk (b.foldr (fun x acc => hexDigit (x / 16 % 16) :: hexDigit (x % 16) :: acc) [])

/-- Go `strings.ToLower` (on the ASCII letters, all the constant contains). -/
def ToLower (s : String) : String := String.mk (s.toList.map Char.toLower)

/-- Go `strings.ReplaceAll(s, old, "")` for a one-character `old`. -/
def ReplaceAllEmpty (s : String) (old : Char) : String :=
  String.mk (s.toList.filter fun c => c != old)

/-- `App.isReleaseSigned`.  `sha1` is `crypto/sha1` (`New`, `Write`, `Sum(nil)`): the
digest of a byte sequence.  On an error of the host call `cert` stays nil. -/
def isReleaseSigned (sha1 : List Nat → List Nat) (h : Host) (a : App) : Run Bool :=
  (Run.call ⟨a.appCtx, "getPackageCertificate", "()[B", []⟩
    (h.callBytes ⟨a.appCtx, "getPackageCertificate", "()[B", []⟩)).bind fun r =>
    (match r.2 with
      | some e => (fatalErr e).bind fun _ => Run.pure []
      | none => Run.pure r.1).bind fun cert =>
      Run.pure (hexString (sha1 cert) == ReplaceAllEmpty (ToLower releaseCertFingerprint) ':')

/-! ### SHA-1

Package `crypto/sha1` is outside the repository: `isReleaseSigned` takes the
digest function as a parameter, and `sha1Sum` below is SHA-1 itself (FIPS 180-4)
on byte lists, for running it. -/

/-- Rotate a 32-bit word left by `n` bits. -/
def rotl32 (x n : Nat) : Nat := ((x <<< n) ||| (x >>> (32 - n))) % 4294967296

/-- The padded message: the bytes, `0x80`, zeros up to 56 modulo 64, and the bit
length as eight big-endian bytes. -/
def sha1Pad (m : List Nat) : List Nat :=
  m.map (· % 256) ++ [128] ++ List.replicate ((119 - m.length % 64) % 64) 0 ++
    [8 * m.length / 72057594037927936 % 256, 8 * m.length / 281474976710656 % 256,
      8 * m.length / 1099511627776 % 256, 8 * m.length / 4294967296 % 256,
      8 * m.length / 16777216 % 256, 8 * m.length / 65536 % 256,
      8 * m.length / 256 % 256, 8 * m.length % 256]

/-- The big-endian 32-bit words of a byte list. -/
def sha1Words : List Nat → List Nat
  | a :: b :: c :: d :: rest => (((a * 256 + b) * 256 + c) * 256 + d) :: sha1Words rest
  | _ => []

/-- The message schedule: `k` more words appended to the sixteen of the block. -/
def sha1Schedule : Nat → List Nat → List Nat
  | 0, w => w
  | k + 1, w =>
    sha1Schedule k (w ++ [rotl32 (w.getD (w.length - 3) 0 ^^^ w.getD (w.length - 8) 0 ^^^
      w.getD (w.length - 14) 0 ^^^ w.getD (w.length - 16) 0) 1])

/-- The five working words of SHA-1. -/
structure Sha1State where
  a : Nat
  b : Nat
  c : Nat
  d : Nat
  e : Nat
deriving DecidableEq, Repr

/-- Round `iw.1` of the compression function on the schedule word `iw.2`. -/
def sha1Round (s : Sha1State) (iw : Nat × Nat) : Sha1State :=
  ⟨(rotl32 s.a 5 +
      (if iw.1 < 20 then (s.b &&& s.c) ||| ((s.b ^^^ 4294967295) &&& s.d)
        else if iw.1 < 40 then s.b ^^^ s.c ^^^ s.d
        else if iw.1 < 60 then (s.b &&& s.c) ||| (s.b &&& s.d) ||| (s.c &&& s.d)
        else s.b ^^^ s.c ^^^ s.d) +
      s.e +
      (if iw.1 < 20 then 1518500249 else if iw.1 < 40 then 1859775393
        else if iw.1 < 60 then 2400959708 else 3395469782) +
      iw.2) % 4294967296,
    s.a, rotl32 s.b 30, s.c, s.d⟩

/-- The compression of one 64-byte block into the chaining value `h`. -/
def sha1Block (h : Sha1State) (block : List Nat) : Sha1State :=
  ⟨(h.a + (((sha1Schedule 64 (sha1Words block)).enum).foldl sha1Round h).a) % 4294967296,
    (h.b + (((sha1Schedule 64 (sha1Words block)).enum).foldl sha1Round h).b) % 4294967296,
    (h.c + (((sha1Schedule 64 (sha1Words block)).enum).foldl sha1Round h).c) % 4294967296,
    (h.d + (((sha1Schedule 64 (sha1Words block)).enum).foldl sha1Round h).d) % 4294967296,
    (h.e + (((sha1Schedule 64 (sha1Words block)).enum).foldl sha1Round h).e) % 4294967296⟩

/-- The compression of `k` blocks in a row. -/
def sha1Blocks : Nat → Sha1State → List Nat → Sha1State
  | 0, h, _ => h
  | k + 1, h, bytes => sha1Blocks k (sha1Block h (bytes.take 64)) (bytes.drop 64)

/-- The four big-endian bytes of a 32-bit word. -/
def be32Bytes (x : Nat) : List Nat := [x / 16777216 % 256, x / 65536 % 256, x / 256 % 256, x % 256]

/-- The chaining value after all blocks of the padded message. -/
def sha1Final (m : List Nat) : Sha1State :=
  sha1Blocks ((sha1Pad m).length / 64)
    ⟨1732584193, 4023233417, 2562383102, 271733878, 3285377520⟩ (sha1Pad m)

/-- SHA-1: the 20-byte digest of a byte list. -/
def sha1Sum (m : List Nat) : List Nat :=
  be32Bytes (sha1Final m).a ++ be32Bytes (sha1Final m).b ++ be32Bytes (sha1Final m).c ++
    be32Bytes (sha1Final m).d ++ be32Bytes (sha1Final m).e

/-- `requestPrepareVPN`: `1000 + iota` on the second line of the block. -/
def requestPrepareVPN : Int := 1001

/-- `App.attachPeer`. -/
def attachPeer (h : Host) (a : App) (act : Object) : Run Unit :=
  (callVoidMethod h a.appCtx "attachPeer" "(Landroid/app/Activity;)V" [.obj act]).bind fun err =>
    match err with
    | some e => fatalErr e
    | none => Run.pure ()

/-- `App.prepareVPN`: the returned value is the `error`. -/
def prepareVPN (h : Host) (a : App) (act : Object) : Run (Option Error) :=
  callVoidMethod h a.appCtx "prepareVPN" "(Landroid/app/Activity;I)V"
    [.obj act, .int requestPrepareVPN]

/-- `App.browseToURL`. -/
def browseToURL (h : Host) (a : App) (act : Object) (url : String) : Run Unit :=
  if act = 0 then Run.pure ()
  else
    (callVoidMethod h a.appCtx "showURL" "(Landroid/app/Activity;Ljava/lang/String;)V"
      [.obj act, .str url]).bind fun err =>
      match err with
      | some e => fatalErr e
      | none => Run.pure ()

/-- `App.contextForView`: the result is a global reference to the context the
host returned. -/
def contextForView (h : Host) (view : Object) : Run Object :=
  if view = 0 then Run.panicWith (.msg "invalid object")
  else
    (Run.call ⟨view, "getContext", "()Landroid/content/Context;", []⟩
      (h.callObject ⟨view, "getContext", "()Landroid/content/Context;", []⟩)).bind fun r =>
      match r.2 with
      | some e => Run.panicWith (.err e)
      | none => Run.pure r.1

/-! ## The interface listing -/

/-- Go `unicode.IsSpace`, which is also the `isSpace` of package `fmt`. -/
def isSpace (c : Char) : Bool :=
  (9 ≤ c.toNat && c.toNat ≤ 13) || c.toNat == 32 || c.toNat == 133 || c.toNat == 160 ||
    c.toNat == 5760 || (8192 ≤ c.toNat && c.toNat ≤ 8202) || c.toNat == 8232 ||
    c.toNat == 8233 || c.toNat == 8239 || c.toNat == 8287 || c.toNat == 12288

/-- Go `strings.Split(s, sep)` for a one-character separator: the pieces between
the separators, `[""]` for the empty string. -/
def Split : List Char → Char → List (List Char)
  | [], _ => [[]]
  | c :: cs, sep =>
    if c = sep then [] :: Split cs sep
    else
      match Split cs sep with
      | [] => [[c]]
      | f :: fs => (c :: f) :: fs

/-- Go `strings.TrimSpace`. -/
def TrimSpace (s : List Char) : List Char :=
  ((s.dropWhile isSpace).reverse.dropWhile isSpace).reverse

/-- Go `strings.Trim(s, cutset)`. -/
def Trim (s cutset : List Char) : List Char :=
  ((s.dropWhile fun c => decide (c ∈ cutset)).reverse.dropWhile fun c => decide (c ∈ cutset)).reverse

/-! ### Package `fmt`: scanning

The scanner state `ss` is the input still unread; `none` is a scan error (every
error makes `Sscanf` return a non-nil `err`). -/

/-- The method `(*ss).SkipSpace` as `Sscanf` runs it (`nlIsSpace` is false). -/
def SkipSpace : List Char → Option (List Char)
  | [] => some []
  | c :: cs =>
    if c = '\r' ∧ cs.head? = some '\n' then SkipSpace cs
    else if c = '\n' then none
    else if !isSpace c then some (c :: cs)
    else SkipSpace cs

/-- The method `(*ss).notEOF`. -/
def notEOF (s : List Char) : Option Unit :=
  match s with
  | [] => none
  | _ :: _ => some ()

/-- The method `(*ss).token(true, notSpace)`: skip space, then the run of non-space
runes, with the input left. -/
def token (s : List Char) : Option (List Char × List Char) :=
  (SkipSpace s).map fun s1 => (s1.takeWhile fun c => !isSpace c, s1.dropWhile fun c => !isSpace c)

/-- The method `(*ss).convertString` for the verb `%s`. -/
def convertString (s : List Char) : Option (List Char × List Char) :=
  (SkipSpace s).bind fun s1 => (notEOF s1).bind fun _ => token s1

/-- The method `(*ss).accept(ok)`: whether the next rune is in `ok`, and the input left. -/
def accept (ok : List Char) (s : List Char) : Bool × List Char :=
  match s with
  | [] => (false, [])
  | c :: cs => if c ∈ ok then (true, cs) else (false, c :: cs)

/-- The digits `getBase` gives for the verb `%d`: `"0123456789_"`. -/
def decimalDigitsUnderscore : List Char :=
  ['0', '1', '2', '3', '4', '5', '6', '7', '8', '9', '_']

/-- The digit loop of Go `strconv.ParseUint(s, 10, 64)`: `none` on a byte that is
no decimal digit `'0'..'9'`, code 48 to 57 (syntax error), or past `2^64 - 1`
(range error). -/
def parseUintLoop : Nat → List Char → Option Nat
  | n, [] => some n
  | n, c :: cs =>
    if 48 ≤ c.toNat ∧ c.toNat ≤ 57 then
      if n * 10 + (c.toNat - 48) < 18446744073709551616 then
        parseUintLoop (n * 10 + (c.toNat - 48)) cs
      else none
    else none

/-- Go `strconv.ParseUint(s, 10, 64)`. -/
def ParseUint (s : List Char) : Option Nat :=
  match s with
  | [] => none
  | _ :: _ => parseUintLoop 0 s

/-- Go `strconv.ParseInt(s, 10, 64)`. -/
def ParseInt (s : List Char) : Option Int :=
  match s with
  | [] => none
  | '+' :: t => (ParseUint t).bind fun un =>
      if 9223372036854775808 ≤ un then none else some (Int.ofNat un)
  | '-' :: t => (ParseUint t).bind fun un =>
      if 9223372036854775808 < un then none else some (-Int.ofNat un)
  | c :: t => (ParseUint (c :: t)).bind fun un =>
      if 9223372036854775808 ≤ un then none else some (Int.ofNat un)

/-- The method `(*ss).scanInt('d', 64)`: an optional sign, then the run of digits
and underscores, handed to `strconv.ParseInt`.  A Go `int` is 64 bits wide
here, so the final width check lets every `int64` through. -/
def scanInt (s : List Char) : Option (Int × List Char) :=
  (SkipSpace s).bind fun s1 => (notEOF s1).bind fun _ =>
    (notEOF (accept ['+', '-'] s1).2).bind fun _ =>
      if (accept decimalDigitsUnderscore (accept ['+', '-'] s1).2).1 = false then none
      else
        (ParseInt
          ((if (accept ['+', '-'] s1).1 then s1.take 1 else []) ++
            (accept ['+', '-'] s1).2.takeWhile fun c => decide (c ∈ decimalDigitsUnderscore))).map
          fun i => (i, (accept ['+', '-'] s1).2.dropWhile fun c => decide (c ∈ decimalDigitsUnderscore))

/-- The method `(*ss).scanBool('t')`. -/
def scanBool (s : List Char) : Option (Bool × List Char) :=
  (SkipSpace s).bind fun s1 =>
    match s1 with
    | [] => none
    | c :: cs =>
      if c = '0' then some (false, cs)
      else if c = '1' then some (true, cs)
      else if c = 't' ∨ c = 'T' then
        if (accept ['r', 'R'] cs).1 then
          if (accept ['u', 'U'] (accept ['r', 'R'] cs).2).1 then
            if (accept ['e', 'E'] (accept ['u', 'U'] (accept ['r', 'R'] cs).2).2).1 then
              some (true, (accept ['e', 'E'] (accept ['u', 'U'] (accept ['r', 'R'] cs).2).2).2)
            else none
          else none
        else some (true, cs)
      else if c = 'f' ∨ c = 'F' then
        if (accept ['a', 'A'] cs).1 then
          if (accept ['l', 'L'] (accept ['a', 'A'] cs).2).1 then
            if (accept ['s', 'S'] (accept ['l', 'L'] (accept ['a', 'A'] cs).2).2).1 then
              if (accept ['e', 'E']
                  (accept ['s', 'S'] (accept ['l', 'L'] (accept ['a', 'A'] cs).2).2).2).1 then
                some (false, (accept ['e', 'E']
                  (accept ['s', 'S'] (accept ['l', 'L'] (accept ['a', 'A'] cs).2).2).2).2)
              else none
            else none
          else none
        else some (false, cs)
      else some (false, cs)

/-- The method `(*ss).advance` on a single space of the format: the input must
continue with a space other than newline, or be at its end; the spaces that
follow are consumed up to a newline. -/
def advanceSpace (s : List Char) : Option (List Char) :=
  match s with
  | [] => some []
  | c :: cs =>
    if !isSpace c then none
    else if c = '\n' then none
    else some (cs.dropWhile fun x => isSpace x && x != '\n')

/-- What `Sscanf` stored through its eight pointer operands. -/
structure Scanned where
  name : List Char
  index : Int
  mtu : Int
  up : Bool
  broadcast : Bool
  loopback : Bool
  pointToPoint : Bool
  multicast : Bool
deriving DecidableEq, Repr

/-- One `%t` of the format that is preceded by a space: `advance` over the space,
`SkipSpace` of `doScanf`, then `scanBool`. -/
def spaceThenBool (s : List Char) : Option (Bool × List Char) :=
  (advanceSpace s).bind fun s1 => (SkipSpace s1).bind scanBool

/-- One `%d` of the format that is preceded by a space. -/
def spaceThenInt (s : List Char) : Option (Int × List Char) :=
  (advanceSpace s).bind fun s1 => (SkipSpace s1).bind scanInt

/-- Go `fmt.Sscanf(str, "%s %d %d %t %t %t %t %t", &name, ..., &multicast)`: `none`
when `err != nil`.  Input left after the last verb is not looked at. -/
def Sscanf (str : List Char) : Option Scanned :=
  (SkipSpace str).bind fun s0 => (convertString s0).bind fun n =>
    (spaceThenInt n.2).bind fun i => (spaceThenInt i.2).bind fun m =>
      (spaceThenBool m.2).bind fun b1 => (spaceThenBool b1.2).bind fun b2 =>
        (spaceThenBool b2.2).bind fun b3 => (spaceThenBool b3.2).bind fun b4 =>
          (spaceThenBool b4.2).map fun b5 =>
            ⟨n.1, i.1, m.1, b1.1, b2.1, b3.1, b4.1, b5.1⟩

/-- Go `net.FlagUp`. -/
def FlagUp : Nat := 1

/-- Go `net.FlagBroadcast`. -/
def FlagBroadcast : Nat := 2

/-- Go `net.FlagLoopback`. -/
def FlagLoopback : Nat := 4

/-- Go `net.FlagPointToPoint`. -/
def FlagPointToPoint : Nat := 8

/-- Go `net.FlagMulticast`. -/
def FlagMulticast : Nat := 16

/-- An `interfaces.Interface` with the fields `getInterfaces` sets; `A` is the type
of a `net.Addr`. -/
structure Interface (A : Type) where
  Name : List Char
  Index : Int
  MTU : Int
  Flags : Nat
  AltAddrs : List A
deriving DecidableEq, Repr

/-- One pass of a loop body that either appends a value to the slice or skips:
`acc = append(acc, y)` on `some y`, nothing on `none`. -/
def appendIfSome {β : Type} (acc : List β) (o : Option β) : List β :=
  match o with
  | some y => acc ++ [y]
  | none => acc

/-- The inner loop of `getInterfaces`: the addresses of the tokens that
`netaddr.ParseIPPrefix` accepts, appended in order. -/
def altAddrs {P A : Type} (parseIPPrefix : List Char → Option P) (ipNet : P → A)
    (tokens : List (List Char)) : List A :=
  tokens.foldl (fun acc addr => appendIfSome acc ((parseIPPrefix addr).map ipNet)) []

/-- The flag word `getInterfaces` builds with `|=` from the five booleans. -/
def flagsOf (up broadcast loopback pointToPoint multicast : Bool) : Nat :=
  ((((((0 : Nat) ||| (if up then FlagUp else 0)) ||| (if broadcast then FlagBroadcast else 0)) |||
    (if loopback then FlagLoopback else 0)) ||| (if pointToPoint then FlagPointToPoint else 0)) |||
    (if multicast then FlagMulticast else 0))

/-- The body of the outer loop of `getInterfaces` on one line: the record the
line appends, `none` where the body takes a `continue`.  (The two
`log.Printf` warnings before a `continue` are left out.) -/
def ifaceOfLine {P A : Type} (parseIPPrefix : List Char → Option P) (ipNet : P → A)
    (iface : List Char) : Option (Interface A) :=
  if TrimSpace iface = [] then none
  else
    match Split iface '|' with
    | [f0, f1] =>
      match Sscanf f0 with
      | none => none
      | some sc =>
        some
          { Name := sc.name
            Index := sc.index
            MTU := sc.mtu
            Flags := flagsOf sc.up sc.broadcast sc.loopback sc.pointToPoint sc.multicast
            AltAddrs := altAddrs parseIPPrefix ipNet (Split (Trim f1 [' ', '\n']) ' ') }
    | _ => none

/-- The outer loop of `getInterfaces` over the lines of the host's string. -/
def ifacesOfString {P A : Type} (parseIPPrefix : List Char → Option P) (ipNet : P → A)
    (ifaceString : List Char) : List (Interface A) :=
  (Split ifaceString '\n').foldl
    (fun ifaces iface => appendIfSome ifaces (ifaceOfLine parseIPPrefix ipNet iface)) []

/-- `App.getInterfaces`: the interfaces and the `error`.  `parseIPPrefix` is
`netaddr.ParseIPPrefix` (`none` when it returns an error) and `ipNet` is
`IPPrefix.IPNet`. -/
def getInterfaces {P A : Type} (parseIPPrefix : List Char → Option P) (ipNet : P → A)
    (h : Host) (a : App) : Run (List (Interface A) × Option Error) :=
  (Run.call ⟨a.appCtx, "getInterfacesAsString", "()Ljava/lang/String;", []⟩
    (h.callString ⟨a.appCtx, "getInterfacesAsString", "()Ljava/lang/String;", []⟩)).bind fun r =>
    match r.2 with
    | some e => Run.pure ([], some e)
    | none => Run.pure (ifacesOfString parseIPPrefix ipNet r.1.toList, none)

/-- A host whose `getInterfacesAsString` answers `s`. -/
def Host.withInterfaces (s : List Char) : Host :=
  { Host.ok with callString := fun _ => (String.mk s, none) }

/-- A sample CIDR recogniser for the examples: text, a slash, then one to three
decimal digits; the accepted token is returned as it is. -/
def sampleParseIPPrefix (s : List Char) : Option (List Char) :=
  match Split s '/' with
  | [ip, bits] =>
    if ip ≠ [] ∧ bits ≠ [] ∧ bits.length ≤ 3 ∧ bits.all Char.isDigit then some s else none
  | _ => none

/-- The spec's example line. -/
def wlan0Line : List Char :=
  "wlan0 30 1500 true true false false true | fe80::1/64 10.0.0.1/24".toList

/-- A state in which the only ready values are a connectivity change, a parked
`onConnect` sender and a parked `onDisconnect` sender. -/
def bridgeConnectivityOnly : Bridge :=
  ⟨⟨1, none, none, none⟩,
    Java_com_tailscale_ipn_IPNService_disconnect
      (Java_com_tailscale_ipn_IPNService_connect
        { Globals.empty with onConnectivityChange := some true } 7) 8⟩

/-! ## The wire format of one interface line, as the spec words it

`name index mtu up broadcast loopback pointToPoint multicast | prefix1 prefix2 ...`:
the fields before `|` separated by spaces, the prefixes after it separated by
spaces.  These definitions describe the lines; they are compared with what
`getInterfaces` makes of them. -/

/-- A run of `k` spaces. -/
def spaces (k : Nat) : List Char := List.replicate k ' '

/-- The number a string of decimal digits denotes. -/
def decimalValue (ds : List Char) : Nat :=
  ds.foldl (fun n c => 10 * n + (c.toNat - 48)) 0

/-- An integer field: an optional minus sign, then decimal digits. -/
def intText (neg : Bool) (ds : List Char) : List Char :=
  (if neg then ['-'] else []) ++ ds

/-- The integer an integer field denotes. -/
def intValue (neg : Bool) (ds : List Char) : Int :=
  if neg then -Int.ofNat (decimalValue ds) else Int.ofNat (decimalValue ds)

/-- Whether an integer field is well formed and fits a Go `int`: at least one digit,
only digits, value within `-2^63 .. 2^63 - 1`. -/
def intFieldOk (neg : Bool) (ds : List Char) : Prop :=
  ds ≠ [] ∧ (∀ c ∈ ds, 48 ≤ c.toNat ∧ c.toNat ≤ 57) ∧
    decimalValue ds < 9223372036854775808 + (if neg then 1 else 0)

/-- A boolean field: `true` or `false`. -/
def boolText (b : Bool) : List Char :=
  if b then ['t', 'r', 'u', 'e'] else ['f', 'a', 'l', 's', 'e']

/-- The eight fields of the part before `|`. -/
structure WireFields where
  name : List Char
  indexNeg : Bool
  indexDigits : List Char
  mtuNeg : Bool
  mtuDigits : List Char
  up : Bool
  broadcast : Bool
  loopback : Bool
  pointToPoint : Bool
  multicast : Bool

/-- Well-formed fields: the name is a non-empty word without white space and
without `|`, index and mtu are integer fields. -/
def WireFields.ok (w : WireFields) : Prop :=
  w.name ≠ [] ∧ (∀ c ∈ w.name, isSpace c = false ∧ c ≠ '|') ∧
    intFieldOk w.indexNeg w.indexDigits ∧ intFieldOk w.mtuNeg w.mtuDigits

/-- The part of a line before `|`: `k 0` leading spaces, the eight fields with
`k i + 1` spaces before field `i + 1`, then `rest` (for a line of exactly eight
fields, the trailing spaces). -/
def WireFields.left (w : WireFields) (k : Nat → Nat) (rest : List Char) : List Char :=
  spaces (k 0) ++ (w.name ++ (spaces (k 1 + 1) ++ (intText w.indexNeg w.indexDigits ++
    (spaces (k 2 + 1) ++ (intText w.mtuNeg w.mtuDigits ++
    (spaces (k 3 + 1) ++ (boolText w.up ++ (spaces (k 4 + 1) ++ (boolText w.broadcast ++
    (spaces (k 5 + 1) ++ (boolText w.loopback ++ (spaces (k 6 + 1) ++ (boolText w.pointToPoint ++
    (spaces (k 7 + 1) ++ (boolText w.multicast ++ rest)))))))))))))))

/-- The flag word of the fields: the union of the flags whose boolean is true (the
flags are distinct bits, so the union is the sum). -/
def WireFields.flags (w : WireFields) : Nat :=
  (if w.up then FlagUp else 0) + (if w.broadcast then FlagBroadcast else 0) +
    (if w.loopback then FlagLoopback else 0) + (if w.pointToPoint then FlagPointToPoint else 0) +
    (if w.multicast then FlagMulticast else 0)

/-- The space-separated tokens of the part after `|`: the non-empty pieces between
spaces, in order. -/
def spaceTokens (right : List Char) : List (List Char) :=
  (Split right ' ').filter fun t => decide (t ≠ [])

/-- The record a well-formed line stands for: name, index, mtu and flags of the
fields, and the addresses of the tokens that parse as prefixes, in order. -/
def WireFields.record {P A : Type} (w : WireFields) (parseIPPrefix : List Char → Option P)
    (ipNet : P → A) (right : List Char) : Interface A :=
  { Name := w.name
    Index := intValue w.indexNeg w.indexDigits
    MTU := intValue w.mtuNeg w.mtuDigits
    Flags := w.flags
    AltAddrs := ((spaceTokens right).filterMap parseIPPrefix).map ipNet }

/-- Lines joined by newlines, as the host sends them. -/
def joinLines : List (List Char) → List Char
  | [] => []
  | [l] => l
  | l :: m :: ls => l ++ '\n' :: joinLines (m :: ls)

/-- The number of white-space separated fields of a string (the length of Go's
`strings.Fields`): `inField` tells whether the previous rune was part of a field. -/
def fieldCountFrom : Bool → List Char → Nat
  | _, [] => 0
  | inField, c :: cs =>
    if isSpace c then fieldCountFrom false cs
    else (if inField then 0 else 1) + fieldCountFrom true cs

/-- The number of white-space separated fields of a string. -/
def fieldCount (s : List Char) : Nat := fieldCountFrom false s

/-- The spacing of the spec's example line: single spaces, one before `|`. -/
def wlan0Spacing (i : Nat) : Nat := if i = 8 then 1 else 0

/-- The part after `|` of the spec's example line. -/
def wlan0Right : List Char := " fe80::1/64 10.0.0.1/24".toList

/-- A listing with a line of seven fields, a blank line, a line without `|`, a line
with two `|`, and one good line. -/
def malformedSample : List Char :=
  "wlan0 30 1500 true true false false | 10.0.0.1/24\n  \nrmnet0 3 1500\na 1 1 t t t t t | b | c\nlo 1 65536 true false true false false | 127.0.0.1/8 ::1".toList

/-- The input `r` is at the end of a field: it is empty or starts with white space. -/
def AtFieldEnd (r : List Char) : Prop :=
  r = [] ∨ ∃ c cs, r = c :: cs ∧ isSpace c = true

/-- Between the inputs `l` and `r` a scanner took a non-empty run of runes, none of
them white space. -/
def Consumes (l r : List Char) : Prop :=
  ∃ tok, l = tok ++ r ∧ tok ≠ [] ∧ ∀ c ∈ tok, isSpace c = false

/-- The fields of the spec's example line. -/
def wlan0Fields : WireFields :=
  ⟨['w', 'l', 'a', 'n', '0'], false, ['3', '0'], false, ['1', '5', '0', '0'],
    true, true, false, false, true⟩

/-! ## Theorems: the notification scheduler -/

theorem until_eq_sub (now t : Time) (h1 : minDuration ≤ t.ns - now.ns)
    (h2 : t.ns - now.ns ≤ maxDuration) : Until now t = t.ns - now.ns := by
  unfold Until Time.Sub
  split_ifs <;> first | rfl | omega

theorem until_range (now t : Time) :
    -9223372036854775808 ≤ Until now t ∧ Until now t ≤ 9223372036854775807 := by
  unfold Until Time.Sub minDuration maxDuration
  split_ifs <;> constructor <;> omega

theorem wrap64_of_range (x : Int) (h1 : -9223372036854775808 ≤ x)
    (h2 : x ≤ 9223372036854775807) : wrap64 x = x := by
  unfold wrap64
  omega

theorem notifyExpiryPush_spec (h : Host) (service : Object) (title : String) (t : Option Int) :
    (notifyExpiryPush h service title t).alerts = [title] ∧
      (notifyExpiryPush h service title t).out = .ret t := by
  unfold notifyExpiryPush pushNotify
  cases h.callVoid ⟨service, "notify", "(Ljava/lang/String;Ljava/lang/String;)V",
      [.str title, .str expiryMsg]⟩ <;>
    simp [Run.bind, Run.call, Run.pure, Run.alerts, fatalErr, Run.logLine]

/-- C1: for every expiry `T` and clock reading `now`, with `d = time.Until(T)` (which
is `T - now` whenever that fits a `Duration`), `notifyExpiry` follows the tier
table: zero `T` gives no alert and no timer; `d ≤ 0` the alert "expired" and no
timer; `0 < d ≤ 5 min` the alert "expires soon" and a timer of `d`;
`5 min < d ≤ 24 h` the alert "expires in a day" and a timer of `d - 5 min`;
`d > 24 h` no alert and a timer of `d - 24 h`.  The boundaries `5 min` and
`24 h` belong to the lower tier; the two tiers without alert make no host call
at all. -/
theorem notifyExpiry_tier_table (h : Host) (service : Object) (now T : Time) :
    (T.IsZero = true →
      (notifyExpiry h service now T).calls = [] ∧
        (notifyExpiry h service now T).out = .ret none) ∧
    (T.IsZero = false → Until now T ≤ 0 →
      (notifyExpiry h service now T).alerts = ["Your authentication has expired!"] ∧
        (notifyExpiry h service now T).out = .ret none) ∧
    (T.IsZero = false → 0 < Until now T → Until now T ≤ 5 * Minute →
      (notifyExpiry h service now T).alerts = ["Your authentication expires soon!"] ∧
        (notifyExpiry h service now T).out = .ret (some (Until now T))) ∧
    (T.IsZero = false → 5 * Minute < Until now T → Until now T ≤ 24 * Hour →
      (notifyExpiry h service now T).alerts = ["Your authentication expires in a day."] ∧
        (notifyExpiry h service now T).out = .ret (some (Until now T - 5 * Minute))) ∧
    (T.IsZero = false → 24 * Hour < Until now T →
      (notifyExpiry h service now T).calls = [] ∧
        (notifyExpiry h service now T).out = .ret (some (Until now T - 24 * Hour))) ∧
    (minDuration ≤ T.ns - now.ns → T.ns - now.ns ≤ maxDuration →
      Until now T = T.ns - now.ns) := by
  have hr := until_range now T
  refine ⟨?_, ?_, ?_, ?_, ?_, until_eq_sub now T⟩
  · intro hz
    simp [notifyExpiry, hz, Run.pure]
  · intro hz h0
    simp only [notifyExpiry, hz, h0, if_true, Bool.false_eq_true, if_false]
    exact notifyExpiryPush_spec h service _ _
  · intro hz h0 h5
    have h5' : Until now T ≤ soon := by unfold soon; exact h5
    simp only [notifyExpiry, hz, not_le.mpr h0, h5', if_true, Bool.false_eq_true, if_false]
    exact notifyExpiryPush_spec h service _ _
  · intro hz h5 h24
    have h0 : ¬ Until now T ≤ 0 := by unfold Minute at h5; omega
    have h5' : ¬ Until now T ≤ soon := by unfold soon; exact not_le.mpr h5
    have h24' : Until now T ≤ aday := by unfold aday; exact h24
    simp only [notifyExpiry, hz, h0, h5', h24', if_true, Bool.false_eq_true, if_false]
    rw [wrap64_of_range _ (by unfold soon Minute; unfold Minute at h5; omega)
      (by unfold soon Minute; omega)]
    exact notifyExpiryPush_spec h service _ _
  · intro hz h24
    have h0 : ¬ Until now T ≤ 0 := by unfold Hour at h24; omega
    have h5' : ¬ Until now T ≤ soon := by unfold soon Minute; unfold Hour at h24; omega
    have h24' : ¬ Until now T ≤ aday := by unfold aday; exact not_le.mpr h24
    simp only [notifyExpiry, hz, h0, h5', h24', if_true, Bool.false_eq_true, if_false]
    rw [wrap64_of_range _ (by unfold aday Hour; unfold Hour at h24; omega)
      (by unfold aday Hour; omega)]
    simp [Run.pure, aday]

/-- C1, at the spec's example: twelve hours before expiry the alert "expires in a
day" is pushed and the timer is set to twelve hours less five minutes. -/
theorem notifyExpiry_tier_table_witness :
    (notifyExpiry Host.ok 1 T0 ⟨T0.ns + 12 * Hour⟩).alerts =
        ["Your authentication expires in a day."] ∧
      (notifyExpiry Host.ok 1 T0 ⟨T0.ns + 12 * Hour⟩).out =
        .ret (some (Until T0 ⟨T0.ns + 12 * Hour⟩ - 5 * Minute)) ∧
      Until T0 ⟨T0.ns + 12 * Hour⟩ - 5 * Minute = 12 * Hour - 5 * Minute :=
  ⟨((notifyExpiry_tier_table Host.ok 1 T0 ⟨T0.ns + 12 * Hour⟩).2.2.2.1
      (by decide) (by decide) (by decide)).1,
    ((notifyExpiry_tier_table Host.ok 1 T0 ⟨T0.ns + 12 * Hour⟩).2.2.2.1
      (by decide) (by decide) (by decide)).2, by decide⟩

/-- C7 as stated fails: three minutes before expiry `notifyExpiry` pushes the
alert "expires soon" and returns a timer of three minutes, not the nil timer. -/
theorem notifyExpiry_soon_timer_example :
    (notifyExpiry Host.ok 1 T0 ⟨T0.ns + 3 * Minute⟩).alerts =
        ["Your authentication expires soon!"] ∧
      (notifyExpiry Host.ok 1 T0 ⟨T0.ns + 3 * Minute⟩).out = .ret (some (3 * Minute)) ∧
      (notifyExpiry Host.ok 1 T0 ⟨T0.ns + 3 * Minute⟩).out ≠ .ret none := by
  decide

/-- C7, amended: for every non-zero expiry with `0 < expiry - now ≤ 5 min`,
`notifyExpiry` pushes the alert "Your authentication expires soon!" at once and
returns a timer whose duration is the time left, `expiry - now`. -/
theorem notifyExpiry_soon_rearms (h : Host) (service : Object) (now T : Time)
    (hz : T.IsZero = false) (h0 : 0 < T.ns - now.ns) (h5 : T.ns - now.ns ≤ 5 * Minute) :
    (notifyExpiry h service now T).alerts = ["Your authentication expires soon!"] ∧
      (notifyExpiry h service now T).out = .ret (some (T.ns - now.ns)) := by
  have hu : Until now T = T.ns - now.ns :=
    until_eq_sub now T (by unfold minDuration; omega)
      (by unfold maxDuration; unfold Minute at h5; omega)
  have h0' : ¬ Until now T ≤ 0 := by rw [hu]; omega
  have h5' : Until now T ≤ soon := by rw [hu]; unfold soon; exact h5
  simp only [notifyExpiry, hz, h0', h5', if_true, Bool.false_eq_true, if_false]
  rw [hu]
  exact notifyExpiryPush_spec h service _ _

/-- C7, amended, three minutes before expiry. -/
theorem notifyExpiry_soon_rearms_witness :
    (notifyExpiry Host.ok 1 T0 ⟨T0.ns + 3 * Minute⟩).alerts =
        ["Your authentication expires soon!"] ∧
      (notifyExpiry Host.ok 1 T0 ⟨T0.ns + 3 * Minute⟩).out =
        .ret (some ((⟨T0.ns + 3 * Minute⟩ : Time).ns - T0.ns)) :=
  notifyExpiry_soon_rearms Host.ok 1 T0 ⟨T0.ns + 3 * Minute⟩ (by decide) (by decide) (by decide)

/-! ## Theorems: the channels -/

theorem trySend_iterate {α : Type} (v : α) (n : Nat) (ch : Option α) :
    Nat.iterate (fun c => Chan1.trySend c v) (n + 1) ch = Chan1.trySend ch v := by
  induction n generalizing ch with
  | zero => rfl
  | succ k ih =>
    rw [Function.iterate_succ_apply, ih]
    cases ch <;> rfl

theorem notifyVPNPrepared_iterate (n : Nat) (g : Globals) :
    Nat.iterate notifyVPNPrepared (n + 1) g = { g with onVPNPrepared := some () } := by
  induction n generalizing g with
  | zero => cases g with | mk a b c d e f k => cases a <;> rfl
  | succ k ih =>
    rw [Function.iterate_succ_apply, ih]
    cases g with | mk a b c d e f k => cases a <;> rfl

theorem notifyVPNRevoked_iterate (n : Nat) (g : Globals) :
    Nat.iterate notifyVPNRevoked (n + 1) g = { g with onVPNRevoked := some () } := by
  induction n generalizing g with
  | zero => cases g with | mk a b c d e f k => cases c <;> rfl
  | succ k ih =>
    rw [Function.iterate_succ_apply, ih]
    cases g with | mk a b c d e f k => cases c <;> rfl

theorem notifyVPNClosed_iterate (n : Nat) (g : Globals) :
    Nat.iterate notifyVPNClosed (n + 1) g = { g with onVPNClosed := some () } := by
  induction n generalizing g with
  | zero => cases g with | mk a b c d e f k => cases b <;> rfl
  | succ k ih =>
    rw [Function.iterate_succ_apply, ih]
    cases g with | mk a b c d e f k => cases b <;> rfl

theorem onWriteStorageGranted_iterate (n : Nat) (g : Globals) :
    Nat.iterate Java_com_tailscale_ipn_App_onWriteStorageGranted (n + 1) g =
      { g with onWriteStorageGranted := some () } := by
  induction n generalizing g with
  | zero => cases g with | mk a b c d e f k => cases k <;> rfl
  | succ k ih =>
    rw [Function.iterate_succ_apply, ih]
    cases g with | mk a b c d e f k => cases k <;> rfl

theorem invalidate_iterate (n : Nat) (a : App) :
    Nat.iterate invalidate (n + 1) a = { a with invalidates := some () } := by
  induction n generalizing a with
  | zero => cases a with | mk x p b i => cases i <;> rfl
  | succ k ih =>
    rw [Function.iterate_succ_apply, ih]
    cases a with | mk x p b i => cases i <;> rfl

/-- C4: on each of the five signal channels, `n ≥ 1` notify calls in a row, from any
state of the one-slot buffer, leave exactly one pending signal and touch
nothing else; a notify on an empty slot marks it pending, a notify on a
pending slot changes nothing; the receive that follows gets its one wakeup
and leaves the slot empty, where a further receive would block. -/
theorem signal_coalescing (n : Nat) (hn : 1 ≤ n) (g : Globals) (a : App) :
    (Nat.iterate notifyVPNPrepared n g = { g with onVPNPrepared := some () } ∧
      Nat.iterate notifyVPNRevoked n g = { g with onVPNRevoked := some () } ∧
      Nat.iterate notifyVPNClosed n g = { g with onVPNClosed := some () } ∧
      Nat.iterate Java_com_tailscale_ipn_App_onWriteStorageGranted n g =
        { g with onWriteStorageGranted := some () } ∧
      Nat.iterate invalidate n a = { a with invalidates := some () }) ∧
    ((g.onVPNPrepared = none → notifyVPNPrepared g = { g with onVPNPrepared := some () }) ∧
      (g.onVPNRevoked = none → notifyVPNRevoked g = { g with onVPNRevoked := some () }) ∧
      (g.onVPNClosed = none → notifyVPNClosed g = { g with onVPNClosed := some () }) ∧
      (g.onWriteStorageGranted = none →
        Java_com_tailscale_ipn_App_onWriteStorageGranted g =
          { g with onWriteStorageGranted := some () }) ∧
      (a.invalidates = none → invalidate a = { a with invalidates := some () })) ∧
    ((g.onVPNPrepared = some () → notifyVPNPrepared g = g) ∧
      (g.onVPNRevoked = some () → notifyVPNRevoked g = g) ∧
      (g.onVPNClosed = some () → notifyVPNClosed g = g) ∧
      (g.onWriteStorageGranted = some () →
        Java_com_tailscale_ipn_App_onWriteStorageGranted g = g) ∧
      (a.invalidates = some () → invalidate a = a)) ∧
    (Chan1.recv (Nat.iterate notifyVPNPrepared n g).onVPNPrepared = .ret ((), none) ∧
      Chan1.recv (Nat.iterate notifyVPNRevoked n g).onVPNRevoked = .ret ((), none) ∧
      Chan1.recv (Nat.iterate notifyVPNClosed n g).onVPNClosed = .ret ((), none) ∧
      Chan1.recv (Nat.iterate Java_com_tailscale_ipn_App_onWriteStorageGranted n g).onWriteStorageGranted
        = .ret ((), none) ∧
      Chan1.recv (Nat.iterate invalidate n a).invalidates = .ret ((), none) ∧
      Chan1.recv (none : Option Unit) = .blocked) := by
  obtain ⟨k, rfl⟩ : ∃ k, n = k + 1 := ⟨n - 1, by omega⟩
  rw [notifyVPNPrepared_iterate, notifyVPNRevoked_iterate, notifyVPNClosed_iterate,
    onWriteStorageGranted_iterate, invalidate_iterate]
  refine ⟨⟨rfl, rfl, rfl, rfl, rfl⟩, ⟨?_, ?_, ?_, ?_, ?_⟩, ⟨?_, ?_, ?_, ?_, ?_⟩,
    ⟨rfl, rfl, rfl, rfl, rfl, rfl⟩⟩
  all_goals
    intro hc
    first
      | (cases g with | mk a b c d e f k => cases hc; rfl)
      | (cases a with | mk x p b i => cases hc; rfl)

/-- C4 at `n = 3`, from the all-empty state. -/
theorem signal_coalescing_witness :
    Nat.iterate notifyVPNPrepared 3 Globals.empty =
        { Globals.empty with onVPNPrepared := some () } ∧
      Chan1.recv (Nat.iterate notifyVPNPrepared 3 Globals.empty).onVPNPrepared =
        .ret ((), none) :=
  ⟨(signal_coalescing 3 (by decide) Globals.empty ⟨1, none, none, none⟩).1.1,
    (signal_coalescing 3 (by decide) Globals.empty ⟨1, none, none, none⟩).2.2.2.1⟩

/-- C5: on each single-slot state channel, whatever it holds at the start, two
writes `v1` then `v2` in a row by one producer both return (neither blocks),
the slot holds `v2` afterwards and the next receive is delivered `v2`; so for
`App.setPrefs` (with a non-null application context, which its host call needs),
`App.setURL` and the `onConnectivityChanged` callback. -/
theorem last_write_wins (h : Host) (a : App) (hctx : a.appCtx ≠ 0) (g : Globals)
    (p1 p2 : Prefs) (u1 u2 : String) (c1 c2 : Bool) :
    ((setPrefs h a p1).out = .ret { a with prefs := some p1 } ∧
      (setPrefs h { a with prefs := some p1 } p2).out = .ret { a with prefs := some p2 } ∧
      Chan1.recv ({ a with prefs := some p2 } : App).prefs = .ret (p2, none)) ∧
    (setURL a u1 = .ret { a with browseURLs := some u1 } ∧
      setURL { a with browseURLs := some u1 } u2 = .ret { a with browseURLs := some u2 } ∧
      Chan1.recv ({ a with browseURLs := some u2 } : App).browseURLs = .ret (u2, none)) ∧
    (Java_com_tailscale_ipn_App_onConnectivityChanged g c1 =
        .ret { g with onConnectivityChange := some c1 } ∧
      Java_com_tailscale_ipn_App_onConnectivityChanged { g with onConnectivityChange := some c1 } c2 =
        .ret { g with onConnectivityChange := some c2 } ∧
      Chan1.recv ({ g with onConnectivityChange := some c2 } : Globals).onConnectivityChange =
        .ret (c2, none)) := by
  have key : ∀ (b : App) (p : Prefs), b.appCtx ≠ 0 →
      (setPrefs h b p).out = .ret { b with prefs := some p } := by
    intro b p hb
    unfold setPrefs callVoidMethod
    rw [if_neg hb]
    cases h.callVoid ⟨b.appCtx, "setTileStatus", "(Z)V", [.bool p.WantRunning]⟩ <;>
      cases hp : b.prefs <;>
      simp [Run.bind, Run.call, Run.pure, fatalErr, Run.logLine, Chan1.send, Chan1.tryRecv, hp]
  refine ⟨⟨key a p1 hctx, key _ p2 hctx, rfl⟩, ⟨?_, ?_, rfl⟩, ⟨?_, ?_, rfl⟩⟩
  · cases hb : a.browseURLs <;> simp [setURL, Chan1.send, Chan1.tryRecv, hb]
  · simp [setURL, Chan1.send, Chan1.tryRecv]
  · cases hb : g.onConnectivityChange <;>
      simp [Java_com_tailscale_ipn_App_onConnectivityChanged, Chan1.send, Chan1.tryRecv, hb]
  · simp [Java_com_tailscale_ipn_App_onConnectivityChanged, Chan1.send, Chan1.tryRecv]

/-- C5 on a channel that already holds a snapshot. -/
theorem last_write_wins_witness :
    (setPrefs Host.ok ⟨1, some ⟨false, 0⟩, none, none⟩ ⟨true, 1⟩).out =
        .ret ⟨1, some ⟨true, 1⟩, none, none⟩ ∧
      (setPrefs Host.ok ⟨1, some ⟨true, 1⟩, none, none⟩ ⟨true, 2⟩).out =
        .ret ⟨1, some ⟨true, 2⟩, none, none⟩ :=
  ⟨(last_write_wins Host.ok ⟨1, some ⟨false, 0⟩, none, none⟩ (by decide) Globals.empty
      ⟨true, 1⟩ ⟨true, 2⟩ "a" "b" true false).1.1,
    (last_write_wins Host.ok ⟨1, some ⟨false, 0⟩, none, none⟩ (by decide) Globals.empty
      ⟨true, 1⟩ ⟨true, 2⟩ "a" "b" true false).1.2.1⟩

/-! ## Theorems: the platform query facade -/

theorem wantFingerprint_eq :
    ReplaceAllEmpty (ToLower releaseCertFingerprint) ':' =
      "869d118b631ef835c6d9c26653bc28222fb8c1ae" := by
  decide

/-- C6: when the host hands over the certificate bytes `cert`, `isReleaseSigned`
returns true exactly when the lower-case hexadecimal rendering of the SHA-1
digest of `cert` is the 40-character string
"869d118b631ef835c6d9c26653bc28222fb8c1ae" (the fingerprint constant
lower-cased, colons removed), and false for every other digest. -/
theorem isReleaseSigned_iff (sha1 : List Nat → List Nat) (h : Host) (a : App) (cert : List Nat)
    (hc : h.callBytes ⟨a.appCtx, "getPackageCertificate", "()[B", []⟩ = (cert, none)) :
    ((isReleaseSigned sha1 h a).out = .ret true ↔
      hexString (sha1 cert) = "869d118b631ef835c6d9c26653bc28222fb8c1ae") ∧
    ((isReleaseSigned sha1 h a).out = .ret false ↔
      hexString (sha1 cert) ≠ "869d118b631ef835c6d9c26653bc28222fb8c1ae") ∧
    ReplaceAllEmpty (ToLower releaseCertFingerprint) ':' =
      "869d118b631ef835c6d9c26653bc28222fb8c1ae" ∧
    ("869d118b631ef835c6d9c26653bc28222fb8c1ae" : String).length = 40 := by
  have hout : (isReleaseSigned sha1 h a).out =
      .ret (hexString (sha1 cert) == "869d118b631ef835c6d9c26653bc28222fb8c1ae") := by
    unfold isReleaseSigned
    rw [hc, wantFingerprint_eq]
    simp [Run.bind, Run.call, Run.pure]
  rw [hout]
  refine ⟨?_, ?_, wantFingerprint_eq, by decide⟩
  · simp
  · simp

set_option maxRecDepth 100000 in
theorem sha1Sum_empty :
    hexString (sha1Sum []) = "da39a3ee5e6b4b0d3255bfef95601890afd80709" := by
  decide

/-- C6 on the host that hands over an empty certificate, with SHA-1 itself. -/
theorem isReleaseSigned_iff_witness :
    ((isReleaseSigned sha1Sum Host.ok ⟨1, none, none, none⟩).out = .ret true ↔
      hexString (sha1Sum []) = "869d118b631ef835c6d9c26653bc28222fb8c1ae") ∧
    ((isReleaseSigned sha1Sum Host.ok ⟨1, none, none, none⟩).out = .ret false ↔
      hexString (sha1Sum []) ≠ "869d118b631ef835c6d9c26653bc28222fb8c1ae") :=
  ⟨(isReleaseSigned_iff sha1Sum Host.ok ⟨1, none, none, none⟩ [] rfl).1,
    (isReleaseSigned_iff sha1Sum Host.ok ⟨1, none, none, none⟩ [] rfl).2.1⟩

/-- The verdict is `true` for a digest function that yields the twenty bytes of the
fingerprint: the rendering is lower-case hexadecimal, two digits a byte. -/
theorem isReleaseSigned_true_example :
    hexString [134, 157, 17, 139, 99, 30, 248, 53, 198, 217, 194, 102, 83, 188, 40, 34, 47, 184,
        193, 174] = "869d118b631ef835c6d9c26653bc28222fb8c1ae" ∧
      (isReleaseSigned
        (fun _ => [134, 157, 17, 139, 99, 30, 248, 53, 198, 217, 194, 102, 83, 188, 40, 34, 47,
          184, 193, 174]) Host.ok ⟨1, none, none, none⟩).out = .ret true := by
  decide

/-- C8 as stated fails: with the null activity `browseToURL` returns normally
without a trace, and `prepareVPN` and `attachPeer` do call into the host,
handing it the null activity. -/
theorem null_activity_example :
    browseToURL Host.ok ⟨1, none, none, none⟩ 0 "https://login.tailscale.com" =
        ⟨[], [], .ret ()⟩ ∧
      prepareVPN Host.ok ⟨1, none, none, none⟩ 0 =
        ⟨[⟨1, "prepareVPN", "(Landroid/app/Activity;I)V", [.obj 0, .int 1001]⟩], [],
          .ret none⟩ ∧
      attachPeer Host.ok ⟨1, none, none, none⟩ 0 =
        ⟨[⟨1, "attachPeer", "(Landroid/app/Activity;)V", [.obj 0]⟩], [], .ret ()⟩ := by
  decide

/-- C8, amended: `callVoidMethod` with the null target object and `contextForView`
with the null view panic with "invalid object" before any call into the host;
`browseToURL` with the null activity returns at once without any host call;
`prepareVPN` and `attachPeer` guard their call target, the application
context, and panic with "invalid object" before any host call when it is null. -/
theorem null_handle_guard (h : Host) (a : App) (name sig url : String) (args : List Value)
    (act : Object) :
    callVoidMethod h 0 name sig args = ⟨[], [], .panic (.msg "invalid object")⟩ ∧
    contextForView h 0 = ⟨[], [], .panic (.msg "invalid object")⟩ ∧
    browseToURL h a 0 url = ⟨[], [], .ret ()⟩ ∧
    (a.appCtx = 0 →
      prepareVPN h a act = ⟨[], [], .panic (.msg "invalid object")⟩ ∧
        attachPeer h a act = ⟨[], [], .panic (.msg "invalid object")⟩) := by
  refine ⟨rfl, rfl, rfl, ?_⟩
  intro h0
  simp [prepareVPN, attachPeer, callVoidMethod, h0, Run.panicWith, Run.bind]

/-- C8, amended, on a host where every call would succeed. -/
theorem null_handle_guard_witness :
    callVoidMethod Host.ok 0 "setTileStatus" "(Z)V" [.bool true] =
        ⟨[], [], .panic (.msg "invalid object")⟩ ∧
      prepareVPN Host.ok ⟨0, none, none, none⟩ 5 = ⟨[], [], .panic (.msg "invalid object")⟩ :=
  ⟨(null_handle_guard Host.ok ⟨0, none, none, none⟩ "setTileStatus" "(Z)V" "" [.bool true] 5).1,
    ((null_handle_guard Host.ok ⟨0, none, none, none⟩ "setTileStatus" "(Z)V" "" [.bool true]
      5).2.2.2 rfl).1⟩

/-- The facade operations that do hand the error of the host call to their
caller: as the returned `error`, or as the value of a panic. -/
theorem facade_error_propagates (h : Host) (a : App) (e : Error) :
    (∀ s, h.callString ⟨a.appCtx, "getInterfacesAsString", "()Ljava/lang/String;", []⟩ = (s, some e) →
      (getInterfaces sampleParseIPPrefix id h a).out = .ret ([], some e)) ∧
    (∀ uri mode fd,
      h.callInt ⟨a.appCtx, "openUri", "(Ljava/lang/String;Ljava/lang/String;)I",
        [.str uri, .str mode]⟩ = (fd, some e) →
      (openURI h a uri mode).out = .ret (none, some e)) ∧
    (∀ b, h.callBoolean ⟨a.appCtx, "isChromeOS", "()Z", []⟩ = (b, some e) →
      (isChromeOS h a).out = .panic (.err e)) ∧
    (∀ s, h.callString ⟨a.appCtx, "getHostname", "()Ljava/lang/String;", []⟩ = (s, some e) →
      (hostname h a).out = .panic (.err e)) ∧
    (∀ s, h.callString ⟨a.appCtx, "getOSVersion", "()Ljava/lang/String;", []⟩ = (s, some e) →
      (osVersion h a).out = .panic (.err e)) ∧
    (∀ s, h.callString ⟨a.appCtx, "getModelName", "()Ljava/lang/String;", []⟩ = (s, some e) →
      (modelName h a).out = .panic (.err e)) ∧
    (∀ service title msg,
      h.callVoid ⟨service, "notify", "(Ljava/lang/String;Ljava/lang/String;)V",
        [.str title, .str msg]⟩ = some e →
      (pushNotify h service title msg).out = .ret (some e)) ∧
    (∀ act, a.appCtx ≠ 0 →
      h.callVoid ⟨a.appCtx, "prepareVPN", "(Landroid/app/Activity;I)V",
        [.obj act, .int requestPrepareVPN]⟩ = some e →
      (prepareVPN h a act).out = .ret (some e)) ∧
    (∀ service exitStatus exit, (∀ c, h.callVoid c = some e) →
      (updateNotification h service .Starting exitStatus exit).out = .ret (some e) ∧
        (updateNotification h service .Running exitStatus exit).out = .ret (some e)) := by
  refine ⟨?_, ?_, ?_, ?_, ?_, ?_, ?_, ?_, ?_⟩
  · intro s hs; simp [getInterfaces, hs, Run.bind, Run.call, Run.pure]
  · intro uri mode fd hs; simp [openURI, hs, Run.bind, Run.call, Run.pure]
  · intro b hs; simp [isChromeOS, hs, Run.bind, Run.call, Run.panicWith]
  · intro s hs; simp [hostname, hs, Run.bind, Run.call, Run.panicWith]
  · intro s hs; simp [osVersion, hs, Run.bind, Run.call, Run.panicWith]
  · intro s hs; simp [modelName, hs, Run.bind, Run.call, Run.panicWith]
  · intro service title msg hs; simp [pushNotify, hs, Run.call]
  · intro act h0 hs; simp [prepareVPN, callVoidMethod, h0, hs, Run.call]
  · intro service exitStatus exit hs; simp [updateNotification, hs, Run.call]

/-- Errors swallowed: whatever error `e` the host call of `isTV` or of
`isReleaseSigned` produces, the operation logs it and returns an ordinary
boolean: the one the failed call left behind, or the verdict on the digest of
the empty certificate. -/
theorem isTV_isReleaseSigned_swallow (sha1 : List Nat → List Nat) (h : Host) (a : App)
    (e : Error) :
    (∀ b, h.callBoolean ⟨a.appCtx, "isTV", "()Z", []⟩ = (b, some e) →
      (isTV h a).out = .ret b ∧ (isTV h a).log = ["fatal error: " ++ e]) ∧
    (∀ bs, h.callBytes ⟨a.appCtx, "getPackageCertificate", "()[B", []⟩ = (bs, some e) →
      (isReleaseSigned sha1 h a).out =
          .ret (hexString (sha1 []) == ReplaceAllEmpty (ToLower releaseCertFingerprint) ':') ∧
        (isReleaseSigned sha1 h a).log = ["fatal error: " ++ e]) := by
  constructor
  · intro b hs; simp [isTV, hs, Run.bind, Run.call, Run.pure, fatalErr, Run.logLine]
  · intro bs hs; simp [isReleaseSigned, hs, Run.bind, Run.call, Run.pure, fatalErr, Run.logLine]

set_option maxRecDepth 100000 in
/-- C9 fails on the code: when the host call fails with the error "boom", `isTV`
returns `false` and `isReleaseSigned` returns `false` (the verdict on the
digest of no bytes) as if the call had succeeded; the error only reaches the
log. -/
theorem isTV_host_error_example :
    isTV (Host.failing "boom") ⟨1, none, none, none⟩ =
        ⟨[⟨1, "isTV", "()Z", []⟩], ["fatal error: boom"], .ret false⟩ ∧
      isReleaseSigned sha1Sum (Host.failing "boom") ⟨1, none, none, none⟩ =
        ⟨[⟨1, "getPackageCertificate", "()[B", []⟩], ["fatal error: boom"], .ret false⟩ ∧
      isChromeOS (Host.failing "boom") ⟨1, none, none, none⟩ =
        ⟨[⟨1, "isChromeOS", "()Z", []⟩], [], .panic (.err "boom")⟩ := by
  decide

/-! ## Theorems: the UI loop -/

/-- C10 as stated fails: with a value ready on `onConnectivityChange` and senders
parked on `onConnect` and `onDisconnect`, no case of the `select` of `runUI`
can be taken: the loop consumes none of these values. -/
theorem runUI_ignores_connectivity_example :
    bridgeConnectivityOnly.g.onConnectivityChange = some true ∧
      bridgeConnectivityOnly.g.onConnect = [7] ∧
      bridgeConnectivityOnly.g.onDisconnect = [8] ∧
      runUIIter .onVPNClosed bridgeConnectivityOnly = none ∧
      runUIIter .prefs bridgeConnectivityOnly = none ∧
      runUIIter .browseURLs bridgeConnectivityOnly = none ∧
      runUIIter .onVPNPrepared bridgeConnectivityOnly = none ∧
      runUIIter .onVPNRevoked bridgeConnectivityOnly = none ∧
      runUIIter .invalidates bridgeConnectivityOnly = none ∧
      ¬ ∃ l s2, runUIStep bridgeConnectivityOnly l s2 := by
  refine ⟨rfl, rfl, rfl, rfl, rfl, rfl, rfl, rfl, rfl, ?_⟩
  rintro ⟨l, s2, c, hc⟩
  cases c <;> simp [runUIIter, bridgeConnectivityOnly, Globals.empty,
    Java_com_tailscale_ipn_IPNService_disconnect, Java_com_tailscale_ipn_IPNService_connect] at hc

/-- C10, amended: the channels registered with the `select` of `runUI` are
`onVPNClosed`, `App.prefs`, `App.browseURLs`, `onVPNPrepared`, `onVPNRevoked`
and `App.invalidates`.  Whenever one of them holds a ready value, one
iteration can receive from it: that channel is left empty, every other
channel is as before, and the loop is `Running` again.  Every iteration ends
`Running` (none returns from `runUI`), and none touches `onConnect`,
`onDisconnect`, `onConnectivityChange` or `onWriteStorageGranted`. -/
theorem runUI_step_spec (s : Bridge) :
    (∀ v, s.g.onVPNClosed = some v →
      runUIStep s .Running { s with g := { s.g with onVPNClosed := none } }) ∧
    (∀ v, s.app.prefs = some v →
      runUIStep s .Running { s with app := { s.app with prefs := none } }) ∧
    (∀ v, s.app.browseURLs = some v →
      runUIStep s .Running { s with app := { s.app with browseURLs := none } }) ∧
    (∀ v, s.g.onVPNPrepared = some v →
      runUIStep s .Running { s with g := { s.g with onVPNPrepared := none } }) ∧
    (∀ v, s.g.onVPNRevoked = some v →
      runUIStep s .Running { s with g := { s.g with onVPNRevoked := none } }) ∧
    (∀ v, s.app.invalidates = some v →
      runUIStep s .Running { s with app := { s.app with invalidates := none } }) ∧
    (∀ l s2, runUIStep s l s2 →
      l = .Running ∧
        s2.g.onConnect = s.g.onConnect ∧ s2.g.onDisconnect = s.g.onDisconnect ∧
        s2.g.onConnectivityChange = s.g.onConnectivityChange ∧
        s2.g.onWriteStorageGranted = s.g.onWriteStorageGranted ∧
        (s2 = { s with g := { s.g with onVPNClosed := none } } ∧ s.g.onVPNClosed ≠ none ∨
          s2 = { s with app := { s.app with prefs := none } } ∧ s.app.prefs ≠ none ∨
          s2 = { s with app := { s.app with browseURLs := none } } ∧ s.app.browseURLs ≠ none ∨
          s2 = { s with g := { s.g with onVPNPrepared := none } } ∧ s.g.onVPNPrepared ≠ none ∨
          s2 = { s with g := { s.g with onVPNRevoked := none } } ∧ s.g.onVPNRevoked ≠ none ∨
          s2 = { s with app := { s.app with invalidates := none } } ∧
            s.app.invalidates ≠ none)) := by
  refine ⟨?_, ?_, ?_, ?_, ?_, ?_, ?_⟩
  · intro v hv; exact ⟨.onVPNClosed, by simp [runUIIter, hv]⟩
  · intro v hv; exact ⟨.prefs, by simp [runUIIter, hv]⟩
  · intro v hv; exact ⟨.browseURLs, by simp [runUIIter, hv]⟩
  · intro v hv; exact ⟨.onVPNPrepared, by simp [runUIIter, hv]⟩
  · intro v hv; exact ⟨.onVPNRevoked, by simp [runUIIter, hv]⟩
  · intro v hv; exact ⟨.invalidates, by simp [runUIIter, hv]⟩
  · rintro l s2 ⟨c, hc⟩
    cases c
    · cases hv : s.g.onVPNClosed <;> simp [runUIIter, hv] at hc
      obtain ⟨rfl, rfl⟩ := hc
      simp
    · cases hv : s.app.prefs <;> simp [runUIIter, hv] at hc
      obtain ⟨rfl, rfl⟩ := hc
      simp
    · cases hv : s.app.browseURLs <;> simp [runUIIter, hv] at hc
      obtain ⟨rfl, rfl⟩ := hc
      simp
    · cases hv : s.g.onVPNPrepared <;> simp [runUIIter, hv] at hc
      obtain ⟨rfl, rfl⟩ := hc
      simp
    · cases hv : s.g.onVPNRevoked <;> simp [runUIIter, hv] at hc
      obtain ⟨rfl, rfl⟩ := hc
      simp
    · cases hv : s.app.invalidates <;> simp [runUIIter, hv] at hc
      obtain ⟨rfl, rfl⟩ := hc
      simp

/-- C10, amended, on a state with a pending `onVPNPrepared` signal. -/
theorem runUI_step_spec_witness :
    runUIStep ⟨⟨1, none, none, none⟩, notifyVPNPrepared Globals.empty⟩ .Running
      ⟨⟨1, none, none, none⟩, Globals.empty⟩ :=
  (runUI_step_spec ⟨⟨1, none, none, none⟩, notifyVPNPrepared Globals.empty⟩).2.2.2.1 () rfl

/-! ## Theorems: the interface listing -/

theorem Split_ne_nil (s : List Char) (sep : Char) : Split s sep ≠ [] := by
  induction s with
  | nil => simp [Split]
  | cons c cs ih =>
    unfold Split
    split_ifs
    · simp
    · cases h : Split cs sep <;> simp

theorem Split_append_sep (a b : List Char) (sep : Char) :
    Split (a ++ sep :: b) sep = Split a sep ++ Split b sep := by
  induction a with
  | nil => simp [Split]
  | cons c cs ih =>
    rw [List.cons_append]
    by_cases hc : c = sep
    · simp [Split, hc, ih]
    · have hne := Split_ne_nil cs sep
      cases h : Split cs sep with
      | nil => exact absurd h hne
      | cons f fs => simp [Split, hc, ih, h]

theorem Split_of_not_mem (a : List Char) (sep : Char) (h : sep ∉ a) : Split a sep = [a] := by
  induction a with
  | nil => rfl
  | cons c cs ih =>
    have hc : c ≠ sep := fun e => h (by simp [e])
    have hcs : sep ∉ cs := fun e => h (by simp [e])
    simp [Split, hc, ih hcs]

theorem Split_length (a : List Char) (sep : Char) :
    (Split a sep).length = a.count sep + 1 := by
  induction a with
  | nil => rfl
  | cons c cs ih =>
    by_cases hc : c = sep
    · simp [Split, hc, ih]
    · have hne := Split_ne_nil cs sep
      cases h : Split cs sep with
      | nil => exact absurd h hne
      | cons f fs =>
        rw [h] at ih
        have hb : (c == sep) = false := by simpa using hc
        simp only [Split, hc, h, if_false, List.count_cons, hb, List.length_cons] at ih ⊢
        simpa using ih

theorem Split_joinLines (ls : List (List Char)) (hne : ls ≠ [])
    (h : ∀ l ∈ ls, '\n' ∉ l) : Split (joinLines ls) '\n' = ls := by
  induction ls with
  | nil => exact absurd rfl hne
  | cons l ls ih =>
    cases ls with
    | nil => simpa [joinLines] using Split_of_not_mem l '\n' (h l (by simp))
    | cons m ms =>
      rw [joinLines, Split_append_sep, Split_of_not_mem l '\n' (h l (by simp)),
        ih (by simp) (fun x hx => h x (List.mem_cons_of_mem _ hx))]
      rfl

theorem foldl_appendIfSome {α β : Type} (f : α → Option β) (l : List α) (acc : List β) :
    l.foldl (fun ifaces x => appendIfSome ifaces (f x)) acc = acc ++ l.filterMap f := by
  induction l generalizing acc with
  | nil => simp
  | cons x xs ih =>
    rw [List.foldl_cons, ih]
    cases h : f x <;> simp [List.filterMap_cons, h, appendIfSome]

theorem ifacesOfString_joinLines {P A : Type} (parse : List Char → Option P) (ipNet : P → A)
    (ls : List (List Char)) (h : ∀ l ∈ ls, '\n' ∉ l) :
    ifacesOfString parse ipNet (joinLines ls) = ls.filterMap (ifaceOfLine parse ipNet) := by
  unfold ifacesOfString
  rw [foldl_appendIfSome]
  by_cases hne : ls = []
  · subst hne
    simp [joinLines, Split, ifaceOfLine, TrimSpace]
  · rw [Split_joinLines ls hne h]
    simp

/-! ### Scanning a well-formed left part -/

theorem spaces_succ (k : Nat) : spaces (k + 1) = ' ' :: spaces k := rfl

theorem not_isSpace_ne (c : Char) (h : isSpace c = false) : c ≠ '\r' ∧ c ≠ '\n' ∧ c ≠ ' ' := by
  refine ⟨?_, ?_, ?_⟩ <;> rintro rfl <;> revert h <;> decide

theorem SkipSpace_spaces (k : Nat) (l : List Char) : SkipSpace (spaces k ++ l) = SkipSpace l := by
  induction k with
  | zero => rfl
  | succ k ih =>
    rw [spaces_succ, List.cons_append, SkipSpace]
    have h1 : ¬ (' ' = '\r' ∧ (spaces k ++ l).head? = some '\n') := by
      rintro ⟨h, _⟩; revert h; decide
    have h2 : ¬ ' ' = '\n' := by decide
    have h3 : ¬ (!isSpace ' ') = true := by decide
    rw [if_neg h1, if_neg h2, if_neg h3, ih]

theorem SkipSpace_of_not_isSpace (c : Char) (cs : List Char) (h : isSpace c = false) :
    SkipSpace (c :: cs) = some (c :: cs) := by
  obtain ⟨h1, h2, _⟩ := not_isSpace_ne c h
  simp [SkipSpace, h1, h2, h]

theorem advanceSpace_spaces (k : Nat) (c : Char) (cs : List Char) (h : isSpace c = false) :
    advanceSpace (spaces (k + 1) ++ c :: cs) = some (c :: cs) := by
  have hd : ∀ j, (spaces j ++ c :: cs).dropWhile (fun x => isSpace x && x != '\n') = c :: cs := by
    intro j
    induction j with
    | zero => simp [spaces, List.dropWhile, h]
    | succ j ih =>
      rw [spaces_succ, List.cons_append, List.dropWhile]
      have : (isSpace ' ' && ' ' != '\n') = true := by decide
      rw [this]
      exact ih
  rw [spaces_succ, List.cons_append, advanceSpace]
  have h3 : ¬ (!isSpace ' ') = true := by decide
  have h2 : ¬ ' ' = '\n' := by decide
  rw [if_neg h3, if_neg h2, hd]

theorem convertString_word (name l : List Char) (hne : name ≠ [])
    (hns : ∀ c ∈ name, isSpace c = false) :
    convertString (name ++ ' ' :: l) = some (name, ' ' :: l) := by
  obtain ⟨c, cs, rfl⟩ : ∃ c cs, name = c :: cs := by
    cases name with
    | nil => exact absurd rfl hne
    | cons c cs => exact ⟨c, cs, rfl⟩
  have hc : isSpace c = false := hns c (by simp)
  have hp : ∀ a ∈ c :: cs, (fun x => !isSpace x) a = true := by
    intro a ha; simp [hns a ha]
  have hsp : isSpace ' ' = true := by decide
  simp only [convertString, token, List.cons_append, SkipSpace_of_not_isSpace c _ hc,
    Option.some_bind, notEOF, Option.map_some']
  rw [← List.cons_append, List.takeWhile_append_of_pos hp, List.dropWhile_append_of_pos hp]
  simp [List.takeWhile, List.dropWhile, hsp]

theorem foldl_decimal_ge (ds : List Char) (acc : Nat) :
    acc ≤ ds.foldl (fun n c => 10 * n + (c.toNat - 48)) acc := by
  induction ds generalizing acc with
  | nil => simp
  | cons d ds ih =>
    rw [List.foldl_cons]
    exact le_trans (by omega) (ih _)

theorem parseUintLoop_digits (ds : List Char) (acc : Nat)
    (hd : ∀ c ∈ ds, 48 ≤ c.toNat ∧ c.toNat ≤ 57)
    (hlt : ds.foldl (fun n c => 10 * n + (c.toNat - 48)) acc < 18446744073709551616) :
    parseUintLoop acc ds = some (ds.foldl (fun n c => 10 * n + (c.toNat - 48)) acc) := by
  induction ds generalizing acc with
  | nil => rfl
  | cons d ds ih =>
    rw [List.foldl_cons] at hlt ⊢
    have hge := foldl_decimal_ge ds (10 * acc + (d.toNat - 48))
    have hdd := hd d (by simp)
    have hmul : acc * 10 + (d.toNat - 48) = 10 * acc + (d.toNat - 48) := by omega
    rw [parseUintLoop, if_pos hdd, hmul, if_pos (by omega)]
    exact ih _ (fun c hc => hd c (List.mem_cons_of_mem _ hc)) hlt

theorem digit_mem (c : Char) (h : 48 ≤ c.toNat ∧ c.toNat ≤ 57) :
    c ∈ decimalDigitsUnderscore ∧ isSpace c = false ∧ c ≠ '+' ∧ c ≠ '-' ∧ c ≠ '|' := by
  have hc : c = Char.ofNat c.toNat := (Char.ofNat_toNat c).symm
  obtain ⟨h1, h2⟩ := h
  generalize c.toNat = n at hc h1 h2
  subst hc
  interval_cases n <;> decide

theorem ParseInt_intText (neg : Bool) (ds : List Char) (h : intFieldOk neg ds) :
    ParseInt (intText neg ds) = some (intValue neg ds) := by
  obtain ⟨hne, hd, hlt⟩ := h
  obtain ⟨d, t, rfl⟩ : ∃ d t, ds = d :: t := by
    cases ds with
    | nil => exact absurd rfl hne
    | cons d t => exact ⟨d, t, rfl⟩
  have hlt64 : (d :: t).foldl (fun n c => 10 * n + (c.toNat - 48)) 0 < 18446744073709551616 := by
    unfold decimalValue at hlt
    split_ifs at hlt <;> omega
  have hp := parseUintLoop_digits (d :: t) 0 hd hlt64
  obtain ⟨_, _, hplus, hminus, _⟩ := digit_mem d (hd d (by simp))
  cases neg with
  | true =>
    have hle : ¬ 9223372036854775808 < decimalValue (d :: t) := by
      simp at hlt; omega
    simp only [intText, if_true, List.singleton_append, ParseInt, ParseUint, hp,
      Option.some_bind, intValue]
    unfold decimalValue at hle
    rw [if_neg hle]
    rfl
  | false =>
    have hle : ¬ 9223372036854775808 ≤ decimalValue (d :: t) := by
      simp at hlt; omega
    have hpi : ParseInt (d :: t) = (ParseUint (d :: t)).bind fun un =>
        if 9223372036854775808 ≤ un then none else some (Int.ofNat un) := by
      unfold ParseInt
      split
      · rename_i heq; cases heq
      · rename_i heq; cases heq; exact absurd rfl hplus
      · rename_i heq; cases heq; exact absurd rfl hminus
      · rename_i heq; cases heq; rfl
    simp only [intText, Bool.false_eq_true, if_false, List.nil_append, hpi, ParseUint, hp,
      Option.some_bind, intValue]
    unfold decimalValue at hle
    rw [if_neg hle]
    rfl

theorem scanInt_field (neg : Bool) (ds l : List Char) (h : intFieldOk neg ds) :
    scanInt (intText neg ds ++ ' ' :: l) = some (intValue neg ds, ' ' :: l) := by
  have hpi := ParseInt_intText neg ds h
  obtain ⟨hne, hd, _⟩ := h
  obtain ⟨d, t, rfl⟩ : ∃ d t, ds = d :: t := by
    cases ds with
    | nil => exact absurd rfl hne
    | cons d t => exact ⟨d, t, rfl⟩
  obtain ⟨hmem, hsp, hplus, hminus, _⟩ := digit_mem d (hd d (by simp))
  have hp : ∀ a ∈ d :: t, (fun c => decide (c ∈ decimalDigitsUnderscore)) a = true := by
    intro a ha; simpa using (digit_mem a (hd a ha)).1
  have hspace : decide (' ' ∈ decimalDigitsUnderscore) = false := by decide
  have htake : ((d :: t) ++ ' ' :: l).takeWhile (fun c => decide (c ∈ decimalDigitsUnderscore))
      = d :: t := by
    rw [List.takeWhile_append_of_pos hp]
    simp [List.takeWhile, hspace]
  have hdrop : ((d :: t) ++ ' ' :: l).dropWhile (fun c => decide (c ∈ decimalDigitsUnderscore))
      = ' ' :: l := by
    rw [List.dropWhile_append_of_pos hp]
    simp [List.dropWhile, hspace]
  cases neg with
  | true =>
    have hm : isSpace '-' = false := by decide
    have hacc : accept ['+', '-'] ('-' :: ((d :: t) ++ ' ' :: l)) = (true, (d :: t) ++ ' ' :: l) := by
      simp [accept]
    have hacc2 : (accept decimalDigitsUnderscore ((d :: t) ++ ' ' :: l)).1 = true := by
      simp [accept, hmem]
    simp only [intText, if_true, List.singleton_append] at hpi ⊢
    rw [List.cons_append, scanInt, SkipSpace_of_not_isSpace _ _ hm]
    simp only [Option.some_bind, notEOF, hacc, hacc2, htake, hdrop, List.take]
    simp [hpi]
  | false =>
    have hacc : accept ['+', '-'] ((d :: t) ++ ' ' :: l) = (false, (d :: t) ++ ' ' :: l) := by
      simp [accept, hplus, hminus]
    have hacc2 : (accept decimalDigitsUnderscore ((d :: t) ++ ' ' :: l)).1 = true := by
      simp [accept, hmem]
    simp only [intText, Bool.false_eq_true, if_false, List.nil_append] at hpi ⊢
    rw [scanInt, List.cons_append, SkipSpace_of_not_isSpace _ _ hsp, ← List.cons_append]
    simp only [Option.some_bind, hacc, hacc2, htake, hdrop]
    simp [notEOF, hpi]

theorem scanBool_text (b : Bool) (l : List Char) :
    scanBool (boolText b ++ l) = some (b, l) := by
  have ht : isSpace 't' = false := by decide
  have hf : isSpace 'f' = false := by decide
  cases b with
  | true =>
    simp only [boolText, if_true, List.cons_append, List.nil_append, scanBool,
      SkipSpace_of_not_isSpace _ _ ht, Option.some_bind]
    simp [accept]
  | false =>
    simp only [boolText, Bool.false_eq_true, if_false, List.cons_append, List.nil_append,
      scanBool, SkipSpace_of_not_isSpace _ _ hf, Option.some_bind]
    simp [accept]

theorem intText_head (neg : Bool) (ds l : List Char) (h : intFieldOk neg ds) :
    ∃ c cs, intText neg ds ++ l = c :: cs ∧ isSpace c = false := by
  obtain ⟨hne, hd, _⟩ := h
  cases neg with
  | true => exact ⟨'-', ds ++ l, rfl, by decide⟩
  | false =>
    cases ds with
    | nil => exact absurd rfl hne
    | cons d t => exact ⟨d, t ++ l, rfl, (digit_mem d (hd d (by simp))).2.1⟩

theorem boolText_head (b : Bool) (l : List Char) :
    ∃ c cs, boolText b ++ l = c :: cs ∧ isSpace c = false := by
  cases b with
  | true => exact ⟨'t', _, rfl, by decide⟩
  | false => exact ⟨'f', _, rfl, by decide⟩

theorem spaceThenInt_field (k : Nat) (neg : Bool) (ds l : List Char) (h : intFieldOk neg ds) :
    spaceThenInt (spaces (k + 1) ++ (intText neg ds ++ ' ' :: l)) =
      some (intValue neg ds, ' ' :: l) := by
  obtain ⟨c, cs, hc, hsp⟩ := intText_head neg ds (' ' :: l) h
  rw [spaceThenInt, hc, advanceSpace_spaces k c cs hsp, Option.some_bind,
    SkipSpace_of_not_isSpace c cs hsp, Option.some_bind, ← hc]
  exact scanInt_field neg ds l h

theorem spaceThenBool_text (k : Nat) (b : Bool) (l : List Char) :
    spaceThenBool (spaces (k + 1) ++ (boolText b ++ l)) = some (b, l) := by
  obtain ⟨c, cs, hc, hsp⟩ := boolText_head b l
  rw [spaceThenBool, hc, advanceSpace_spaces k c cs hsp, Option.some_bind,
    SkipSpace_of_not_isSpace c cs hsp, Option.some_bind, ← hc]
  exact scanBool_text b l

theorem Sscanf_left (w : WireFields) (k : Nat → Nat) (rest : List Char) (h : w.ok) :
    Sscanf (w.left k rest) =
      some ⟨w.name, intValue w.indexNeg w.indexDigits, intValue w.mtuNeg w.mtuDigits,
        w.up, w.broadcast, w.loopback, w.pointToPoint, w.multicast⟩ := by
  obtain ⟨hne, hns, hi, hm⟩ := h
  obtain ⟨c, cs, hname⟩ : ∃ c cs, w.name = c :: cs := by
    cases hw : w.name with
    | nil => exact absurd hw hne
    | cons c cs => exact ⟨c, cs, rfl⟩
  have hc : isSpace c = false := (hns c (by simp [hname])).1
  have hskip : ∀ l, SkipSpace (spaces (k 0) ++ (w.name ++ l)) = some (w.name ++ l) := by
    intro l
    rw [SkipSpace_spaces, hname, List.cons_append, SkipSpace_of_not_isSpace c _ hc]
  have hconv : ∀ j l, convertString (w.name ++ (spaces (j + 1) ++ l)) =
      some (w.name, spaces (j + 1) ++ l) := by
    intro j l
    rw [spaces_succ, List.cons_append]
    exact convertString_word w.name _ hne (fun x hx => (hns x hx).1)
  have hint : ∀ j neg ds j2 l, intFieldOk neg ds →
      spaceThenInt (spaces (j + 1) ++ (intText neg ds ++ (spaces (j2 + 1) ++ l))) =
        some (intValue neg ds, spaces (j2 + 1) ++ l) := by
    intro j neg ds j2 l hok
    rw [spaces_succ j2, List.cons_append]
    exact spaceThenInt_field j neg ds _ hok
  simp only [Sscanf, WireFields.left, hskip, Option.some_bind, hconv, hint _ _ _ _ _ hi,
    hint _ _ _ _ _ hm, spaceThenBool_text, Option.map_some']

/-! ### The rest of a line -/

theorem TrimSpace_eq_nil_iff (l : List Char) :
    TrimSpace l = [] ↔ ∀ c ∈ l, isSpace c = true := by
  unfold TrimSpace
  rw [List.reverse_eq_nil_iff, List.dropWhile_eq_nil_iff]
  constructor
  · intro h
    have h1 : ∀ x ∈ l.dropWhile isSpace, isSpace x = true := fun x hx =>
      h x (List.mem_reverse.mpr hx)
    have h2 : (l.dropWhile isSpace).dropWhile isSpace = [] := List.dropWhile_eq_nil_iff.mpr h1
    rw [List.dropWhile_idempotent] at h2
    exact List.dropWhile_eq_nil_iff.mp h2
  · intro h x hx
    have : l.dropWhile isSpace = [] := List.dropWhile_eq_nil_iff.mpr h
    rw [this] at hx
    simp at hx

theorem altAddrs_eq {P A : Type} (parse : List Char → Option P) (ipNet : P → A)
    (toks : List (List Char)) :
    altAddrs parse ipNet toks = (toks.filterMap parse).map ipNet := by
  unfold altAddrs
  rw [foldl_appendIfSome, List.nil_append, List.map_filterMap]

theorem filterMap_nonempty {P : Type} (parse : List Char → Option P) (hp : parse [] = none)
    (l : List (List Char)) :
    l.filterMap parse = (l.filter fun t => decide (t ≠ [])).filterMap parse := by
  induction l with
  | nil => rfl
  | cons t ts ih =>
    by_cases ht : t = []
    · subst ht
      simp [List.filterMap_cons, hp, ih]
    · simp [List.filter_cons, ht, List.filterMap_cons, ih]

theorem spaceTokens_cons_space (l : List Char) : spaceTokens (' ' :: l) = spaceTokens l := by
  simp [spaceTokens, Split]

theorem spaceTokens_append_space (l : List Char) : spaceTokens (l ++ [' ']) = spaceTokens l := by
  simp [spaceTokens, Split_append_sep, Split]

theorem spaceTokens_dropWhile (l : List Char) (h : '\n' ∉ l) :
    spaceTokens (l.dropWhile fun c => decide (c ∈ [' ', '\n'])) = spaceTokens l := by
  induction l with
  | nil => rfl
  | cons c cs ih =>
    have hcs : '\n' ∉ cs := fun e => h (List.mem_cons_of_mem _ e)
    have hc : c ≠ '\n' := fun e => h (by simp [e])
    by_cases hsp : c = ' '
    · subst hsp
      rw [List.dropWhile_cons_of_pos (by decide), ih hcs, spaceTokens_cons_space]
    · rw [List.dropWhile_cons_of_neg (by simp [hsp, hc])]

theorem spaceTokens_reverse_dropWhile (r : List Char) (h : '\n' ∉ r) :
    spaceTokens (r.dropWhile fun c => decide (c ∈ [' ', '\n'])).reverse = spaceTokens r.reverse := by
  induction r with
  | nil => rfl
  | cons c cs ih =>
    have hcs : '\n' ∉ cs := fun e => h (List.mem_cons_of_mem _ e)
    have hc : c ≠ '\n' := fun e => h (by simp [e])
    by_cases hsp : c = ' '
    · subst hsp
      rw [List.dropWhile_cons_of_pos (by decide), ih hcs, List.reverse_cons,
        spaceTokens_append_space]
    · rw [List.dropWhile_cons_of_neg (by simp [hsp, hc])]

theorem spaceTokens_Trim (right : List Char) (h : '\n' ∉ right) :
    spaceTokens (Trim right [' ', '\n']) = spaceTokens right := by
  unfold Trim
  have h1 : '\n' ∉ (right.dropWhile fun c => decide (c ∈ [' ', '\n'])).reverse := by
    intro e
    exact h ((List.dropWhile_sublist _).subset (List.mem_reverse.mp e))
  rw [spaceTokens_reverse_dropWhile _ h1, List.reverse_reverse, spaceTokens_dropWhile _ h]

theorem altAddrs_Trim {P A : Type} (parse : List Char → Option P) (ipNet : P → A)
    (hp : parse [] = none) (right : List Char) (h : '\n' ∉ right) :
    altAddrs parse ipNet (Split (Trim right [' ', '\n']) ' ') =
      ((spaceTokens right).filterMap parse).map ipNet := by
  rw [altAddrs_eq, filterMap_nonempty parse hp, ← spaceTokens_Trim right h]
  rfl

theorem flagsOf_sum : ∀ b1 b2 b3 b4 b5 : Bool,
    flagsOf b1 b2 b3 b4 b5 =
      (if b1 then FlagUp else 0) + (if b2 then FlagBroadcast else 0) +
        (if b3 then FlagLoopback else 0) + (if b4 then FlagPointToPoint else 0) +
        (if b5 then FlagMulticast else 0) := by
  decide

theorem flagsOf_eq (w : WireFields) :
    flagsOf w.up w.broadcast w.loopback w.pointToPoint w.multicast = w.flags :=
  flagsOf_sum _ _ _ _ _

theorem mem_spaces (c : Char) (k : Nat) (h : c ∈ spaces k) : c = ' ' :=
  List.eq_of_mem_replicate h

theorem mem_intText (c : Char) (neg : Bool) (ds : List Char) (hok : intFieldOk neg ds)
    (h : c ∈ intText neg ds) : c ≠ '|' := by
  unfold intText at h
  rcases List.mem_append.mp h with h1 | h1
  · cases neg <;> simp at h1
    subst h1; decide
  · exact (digit_mem c (hok.2.1 c h1)).2.2.2.2

theorem mem_boolText (c : Char) (b : Bool) (h : c ∈ boolText b) : c ≠ '|' := by
  rintro rfl
  cases b <;> revert h <;> decide

theorem left_no_bar (w : WireFields) (k : Nat → Nat) (rest : List Char) (h : w.ok)
    (hrest : '|' ∉ rest) : '|' ∉ w.left k rest := by
  obtain ⟨_, hns, hi, hm⟩ := h
  unfold WireFields.left
  simp only [List.mem_append, not_or]
  have hs : ∀ j, '|' ∉ spaces j := fun j e => by
    have := mem_spaces _ _ e
    revert this; decide
  have hb : ∀ b, '|' ∉ boolText b := fun b e => mem_boolText _ b e rfl
  exact ⟨hs _, fun e => (hns _ e).2 rfl, hs _, fun e => mem_intText _ _ _ hi e rfl, hs _,
    fun e => mem_intText _ _ _ hm e rfl, hs _, hb _, hs _, hb _, hs _, hb _, hs _, hb _, hs _,
    hb _, hrest⟩

theorem ifaceOfLine_wellformed {P A : Type} (parse : List Char → Option P) (ipNet : P → A)
    (hp : parse [] = none) (w : WireFields) (k : Nat → Nat) (rest right : List Char)
    (h : w.ok) (hrest : '|' ∉ rest) (hbar : '|' ∉ right) (hnl : '\n' ∉ right) :
    ifaceOfLine parse ipNet (w.left k rest ++ '|' :: right) =
      some (w.record parse ipNet right) := by
  have hsplit : Split (w.left k rest ++ '|' :: right) '|' = [w.left k rest, right] := by
    rw [Split_append_sep, Split_of_not_mem _ _ (left_no_bar w k rest h hrest),
      Split_of_not_mem _ _ hbar]
    rfl
  have htrim : TrimSpace (w.left k rest ++ '|' :: right) ≠ [] := by
    intro e
    have hall := (TrimSpace_eq_nil_iff _).mp e '|' (by simp)
    revert hall; decide
  unfold ifaceOfLine
  rw [if_neg htrim, hsplit]
  simp only [Sscanf_left w k rest h, flagsOf_eq, altAddrs_Trim parse ipNet hp right hnl]
  rfl

/-! ### Lines that are skipped -/

theorem fieldCountFrom_space (b : Bool) (c : Char) (cs : List Char) (h : isSpace c = true) :
    fieldCountFrom b (c :: cs) = fieldCountFrom false cs := by
  simp [fieldCountFrom, h]

theorem fieldCountFrom_true_atEnd (r : List Char) (h : AtFieldEnd r) :
    fieldCountFrom true r = fieldCountFrom false r := by
  rcases h with rfl | ⟨c, cs, rfl, hc⟩
  · rfl
  · rw [fieldCountFrom_space _ _ _ hc, fieldCountFrom_space _ _ _ hc]

theorem fieldCountFrom_true_append (tok r : List Char) (h : ∀ c ∈ tok, isSpace c = false) :
    fieldCountFrom true (tok ++ r) = fieldCountFrom true r := by
  induction tok with
  | nil => rfl
  | cons c cs ih =>
    have hc : isSpace c = false := h c (by simp)
    rw [List.cons_append, fieldCountFrom]
    simp only [hc, Bool.false_eq_true, if_false, if_true, Nat.zero_add]
    exact ih (fun x hx => h x (List.mem_cons_of_mem _ hx))

theorem Consumes.count (l r : List Char) (h : Consumes l r) :
    1 ≤ fieldCount l ∧ (AtFieldEnd r → fieldCount l = 1 + fieldCount r) := by
  obtain ⟨tok, rfl, hne, hns⟩ := h
  cases tok with
  | nil => exact absurd rfl hne
  | cons c cs =>
    have hc : isSpace c = false := hns c (by simp)
    have hcs : ∀ x ∈ cs, isSpace x = false := fun x hx => hns x (List.mem_cons_of_mem _ hx)
    have hcount : fieldCount (c :: cs ++ r) = 1 + fieldCountFrom true r := by
      rw [fieldCount, List.cons_append, fieldCountFrom]
      simp only [hc, Bool.false_eq_true, if_false]
      rw [fieldCountFrom_true_append cs r hcs]
    refine ⟨by omega, fun hr => ?_⟩
    rw [hcount, fieldCountFrom_true_atEnd r hr, fieldCount]

theorem Consumes.step (l c cs) (h : Consumes l (c :: cs)) (hc : isSpace c = false) :
    Consumes l cs := by
  obtain ⟨tok, rfl, _, hns⟩ := h
  refine ⟨tok ++ [c], by simp, by simp, ?_⟩
  intro x hx
  rcases List.mem_append.mp hx with h1 | h1
  · exact hns x h1
  · simp at h1; subst h1; exact hc

theorem Consumes.one (c : Char) (cs : List Char) (hc : isSpace c = false) :
    Consumes (c :: cs) cs :=
  ⟨[c], rfl, by simp, by simpa using hc⟩

theorem SkipSpace_some (l l2 : List Char) (h : SkipSpace l = some l2) :
    fieldCount l = fieldCount l2 ∧ (l2 = [] ∨ ∃ c cs, l2 = c :: cs ∧ isSpace c = false) := by
  induction l with
  | nil =>
    simp [SkipSpace] at h
    subst h
    exact ⟨rfl, Or.inl rfl⟩
  | cons c cs ih =>
    rw [SkipSpace] at h
    split_ifs at h with h1 h2 h3
    · obtain ⟨hcr, _⟩ := h1
      have hsp : isSpace c = true := by subst hcr; decide
      rw [fieldCount, fieldCountFrom_space _ _ _ hsp]
      exact ih h
    · simp at h3
      cases h
      exact ⟨rfl, Or.inr ⟨c, cs, rfl, h3⟩⟩
    · have hsp : isSpace c = true := by simpa using h3
      rw [fieldCount, fieldCountFrom_space _ _ _ hsp]
      exact ih h

theorem accept_true (ok s : List Char) (h : (accept ok s).1 = true) :
    ∃ c, c ∈ ok ∧ s = c :: (accept ok s).2 := by
  cases s with
  | nil => simp [accept] at h
  | cons c cs =>
    by_cases hc : c ∈ ok
    · exact ⟨c, hc, by simp [accept, hc]⟩
    · simp [accept, hc] at h

theorem accept_false (ok s : List Char) (h : (accept ok s).1 = false) : (accept ok s).2 = s := by
  cases s with
  | nil => rfl
  | cons c cs =>
    by_cases hc : c ∈ ok
    · simp [accept, hc] at h
    · simp [accept, hc]

theorem Consumes.accept (ok : List Char) (hok : ∀ c ∈ ok, isSpace c = false) (l m : List Char)
    (h : Consumes l m) (ha : (accept ok m).1 = true) : Consumes l (accept ok m).2 := by
  obtain ⟨c, hc, hm⟩ := accept_true ok m ha
  rw [hm] at h
  exact Consumes.step l c _ h (hok c hc)

theorem convertString_consumes (l name r : List Char) (h : convertString l = some (name, r)) :
    ∃ l0, SkipSpace l = some l0 ∧ Consumes l0 r := by
  unfold convertString at h
  cases h0 : SkipSpace l with
  | none => simp [h0] at h
  | some l0 =>
    refine ⟨l0, rfl, ?_⟩
    rw [h0, Option.some_bind] at h
    rcases (SkipSpace_some l l0 h0).2 with rfl | ⟨c, cs, rfl, hc⟩
    · simp [notEOF] at h
    · simp only [notEOF, Option.some_bind, token, SkipSpace_of_not_isSpace c cs hc,
        Option.map_some', Option.some.injEq, Prod.mk.injEq] at h
      obtain ⟨h1, h2⟩ := h
      refine ⟨(c :: cs).takeWhile fun x => !isSpace x, ?_, ?_, ?_⟩
      · rw [← h2, List.takeWhile_append_dropWhile]
      · simp [List.takeWhile, hc]
      · intro x hx
        simpa using List.mem_takeWhile_imp hx

theorem sign_not_isSpace : ∀ c ∈ ['+', '-'], isSpace c = false := by decide

theorem digitsUnderscore_not_isSpace : ∀ c ∈ decimalDigitsUnderscore, isSpace c = false := by
  decide

theorem scanInt_consumes (l : List Char) (i : Int) (r : List Char)
    (h : scanInt l = some (i, r)) : ∃ l0, SkipSpace l = some l0 ∧ Consumes l0 r := by
  unfold scanInt at h
  cases h0 : SkipSpace l with
  | none => simp [h0] at h
  | some l0 =>
    refine ⟨l0, rfl, ?_⟩
    rw [h0, Option.some_bind] at h
    cases hn1 : notEOF l0 with
    | none => simp [hn1] at h
    | some u1 =>
      rw [hn1, Option.some_bind] at h
      cases hn2 : notEOF (accept ['+', '-'] l0).2 with
      | none => simp [hn2] at h
      | some u2 =>
        rw [hn2, Option.some_bind] at h
        by_cases hd : (accept decimalDigitsUnderscore (accept ['+', '-'] l0).2).1 = false
        · rw [if_pos hd] at h; cases h
        · rw [if_neg hd] at h
          have hd2 : (accept decimalDigitsUnderscore (accept ['+', '-'] l0).2).1 = true := by
            simpa using hd
          obtain ⟨v, _, hv⟩ := Option.map_eq_some'.mp h
          have hr : (accept ['+', '-'] l0).2.dropWhile
              (fun c => decide (c ∈ decimalDigitsUnderscore)) = r := (Prod.mk.inj hv).2
          have hdig : Consumes (accept ['+', '-'] l0).2 r := by
            obtain ⟨d, hdm, hds⟩ := accept_true _ _ hd2
            refine ⟨(accept ['+', '-'] l0).2.takeWhile
              fun c => decide (c ∈ decimalDigitsUnderscore), ?_, ?_, ?_⟩
            · rw [← hr, List.takeWhile_append_dropWhile]
            · rw [hds]; simp [List.takeWhile, hdm]
            · intro x hx
              exact digitsUnderscore_not_isSpace x (by simpa using List.mem_takeWhile_imp hx)
          cases hs : (accept ['+', '-'] l0).1 with
          | false => rw [accept_false _ _ hs] at hdig; exact hdig
          | true =>
            obtain ⟨c, hc, hl0⟩ := accept_true _ _ hs
            obtain ⟨tok, htok, _, hns⟩ := hdig
            refine ⟨c :: tok, ?_, by simp, ?_⟩
            · rw [hl0, htok]; simp
            · intro x hx
              rcases List.mem_cons.mp hx with rfl | h1
              · exact sign_not_isSpace _ hc
              · exact hns x h1

theorem scanBool_consumes (l : List Char) (b : Bool) (r : List Char)
    (h : scanBool l = some (b, r)) :
    ∃ l0, SkipSpace l = some l0 ∧ Consumes l0 r := by
  unfold scanBool at h
  cases h0 : SkipSpace l with
  | none => simp [h0] at h
  | some l0 =>
    refine ⟨l0, rfl, ?_⟩
    rw [h0, Option.some_bind] at h
    rcases (SkipSpace_some l l0 h0).2 with rfl | ⟨c, cs, rfl, hc⟩
    · simp at h
    · have base := Consumes.one c cs hc
      have hr : ∀ c ∈ ['r', 'R'], isSpace c = false := by decide
      have hu : ∀ c ∈ ['u', 'U'], isSpace c = false := by decide
      have he : ∀ c ∈ ['e', 'E'], isSpace c = false := by decide
      have ha : ∀ c ∈ ['a', 'A'], isSpace c = false := by decide
      have hl : ∀ c ∈ ['l', 'L'], isSpace c = false := by decide
      have hs : ∀ c ∈ ['s', 'S'], isSpace c = false := by decide
      simp only at h
      split_ifs at h with c0 c1 ct a1 a2 a3 cf f1 f2 f3 f4
      all_goals simp only [Option.some.injEq, Prod.mk.injEq] at h
      all_goals obtain ⟨_, hrest⟩ := h
      all_goals subst hrest
      · exact base
      · exact base
      · exact Consumes.accept _ he _ _ (Consumes.accept _ hu _ _ (Consumes.accept _ hr _ _ base a1) a2) a3
      · exact base
      · exact Consumes.accept _ he _ _ (Consumes.accept _ hs _ _
          (Consumes.accept _ hl _ _ (Consumes.accept _ ha _ _ base f1) f2) f3) f4
      · exact base
      · exact base

theorem dropWhile_space_count (l : List Char) :
    fieldCount (l.dropWhile fun x => isSpace x && x != '\n') = fieldCount l := by
  induction l with
  | nil => rfl
  | cons c cs ih =>
    by_cases hp : (isSpace c && c != '\n') = true
    · simp only [List.dropWhile_cons, hp, if_true]
      rw [ih]
      have hsp : isSpace c = true := by
        simp only [Bool.and_eq_true] at hp; exact hp.1
      rw [fieldCount, fieldCount, fieldCountFrom_space _ _ _ hsp]
    · simp only [List.dropWhile_cons, hp, if_false, Bool.false_eq_true]

theorem advanceSpace_some (r r2 : List Char) (h : advanceSpace r = some r2) :
    AtFieldEnd r ∧ fieldCount r2 = fieldCount r := by
  cases r with
  | nil =>
    simp [advanceSpace] at h
    subst h
    exact ⟨Or.inl rfl, rfl⟩
  | cons c cs =>
    rw [advanceSpace] at h
    split_ifs at h with h1 h2
    have hsp : isSpace c = true := by simpa using h1
    cases h
    refine ⟨Or.inr ⟨c, cs, rfl, hsp⟩, ?_⟩
    rw [dropWhile_space_count, fieldCount, fieldCount, fieldCountFrom_space _ _ _ hsp]

/-- After a space of the format, a verb that consumes a field: the input was at
the end of a field, holds at least one more field, and exactly one more than
the input left when that is again at the end of a field. -/
theorem spaceThen_count {α : Type} (scan : List Char → Option (α × List Char))
    (hscan : ∀ l v r, scan l = some (v, r) → ∃ l0, SkipSpace l = some l0 ∧ Consumes l0 r)
    (r r2 : List Char) (v : α)
    (h : ((advanceSpace r).bind fun s1 => (SkipSpace s1).bind scan) = some (v, r2)) :
    AtFieldEnd r ∧ 1 ≤ fieldCount r ∧ (AtFieldEnd r2 → fieldCount r = 1 + fieldCount r2) := by
  cases ha : advanceSpace r with
  | none => simp [ha] at h
  | some s1 =>
    rw [ha, Option.some_bind] at h
    cases hs : SkipSpace s1 with
    | none => simp [hs] at h
    | some s2 =>
      rw [hs, Option.some_bind] at h
      obtain ⟨l0, hl0, hcons⟩ := hscan s2 v r2 h
      obtain ⟨hend, hcount⟩ := advanceSpace_some r s1 ha
      have h1 := (SkipSpace_some s1 s2 hs).1
      have h2 := (SkipSpace_some s2 l0 hl0).1
      obtain ⟨h3, h4⟩ := Consumes.count l0 r2 hcons
      refine ⟨hend, by omega, fun he => ?_⟩
      have := h4 he
      omega

theorem Sscanf_fieldCount (l : List Char) (sc : Scanned) (h : Sscanf l = some sc) :
    8 ≤ fieldCount l := by
  unfold Sscanf at h
  cases h0 : SkipSpace l with
  | none => simp [h0] at h
  | some s0 =>
    rw [h0, Option.some_bind] at h
    cases hn : convertString s0 with
    | none => simp [hn] at h
    | some n =>
      rw [hn, Option.some_bind] at h
      cases hi : spaceThenInt n.2 with
      | none => simp [hi] at h
      | some i =>
        rw [hi, Option.some_bind] at h
        cases hm : spaceThenInt i.2 with
        | none => simp [hm] at h
        | some m =>
          rw [hm, Option.some_bind] at h
          cases hb1 : spaceThenBool m.2 with
          | none => simp [hb1] at h
          | some b1 =>
            rw [hb1, Option.some_bind] at h
            cases hb2 : spaceThenBool b1.2 with
            | none => simp [hb2] at h
            | some b2 =>
              rw [hb2, Option.some_bind] at h
              cases hb3 : spaceThenBool b2.2 with
              | none => simp [hb3] at h
              | some b3 =>
                rw [hb3, Option.some_bind] at h
                cases hb4 : spaceThenBool b3.2 with
                | none => simp [hb4] at h
                | some b4 =>
                  rw [hb4, Option.some_bind] at h
                  cases hb5 : spaceThenBool b4.2 with
                  | none => simp [hb5] at h
                  | some b5 =>
                    obtain ⟨l0, hl0, hc0⟩ := convertString_consumes s0 n.1 n.2 hn
                    have e0 := (SkipSpace_some l s0 h0).1
                    have e0' := (SkipSpace_some s0 l0 hl0).1
                    have c0 := (Consumes.count l0 n.2 hc0).2
                    have ci := spaceThen_count scanInt scanInt_consumes n.2 i.2 i.1 hi
                    have cm := spaceThen_count scanInt scanInt_consumes i.2 m.2 m.1 hm
                    have c1 := spaceThen_count scanBool scanBool_consumes m.2 b1.2 b1.1 hb1
                    have c2 := spaceThen_count scanBool scanBool_consumes b1.2 b2.2 b2.1 hb2
                    have c3 := spaceThen_count scanBool scanBool_consumes b2.2 b3.2 b3.1 hb3
                    have c4 := spaceThen_count scanBool scanBool_consumes b3.2 b4.2 b4.1 hb4
                    have c5 := spaceThen_count scanBool scanBool_consumes b4.2 b5.2 b5.1 hb5
                    have := c0 ci.1
                    have := ci.2.2 cm.1
                    have := cm.2.2 c1.1
                    have := c1.2.2 c2.1
                    have := c2.2.2 c3.1
                    have := c3.2.2 c4.1
                    have := c4.2.2 c5.1
                    have := c5.2.1
                    omega

theorem Split_head_takeWhile (l : List Char) (sep : Char) :
    (Split l sep).head? = some (l.takeWhile fun c => c != sep) := by
  induction l with
  | nil => rfl
  | cons c cs ih =>
    by_cases hc : c = sep
    · simp [Split, hc]
    · have hne := Split_ne_nil cs sep
      cases h : Split cs sep with
      | nil => exact absurd h hne
      | cons f fs =>
        rw [h] at ih
        simp only [List.head?_cons, Option.some.injEq] at ih
        simp [Split, hc, h, List.takeWhile_cons, ih]

theorem ifaceOfLine_blank {P A : Type} (parse : List Char → Option P) (ipNet : P → A)
    (l : List Char) (h : ∀ c ∈ l, isSpace c = true) : ifaceOfLine parse ipNet l = none := by
  unfold ifaceOfLine
  rw [if_pos ((TrimSpace_eq_nil_iff l).mpr h)]

theorem ifaceOfLine_bars {P A : Type} (parse : List Char → Option P) (ipNet : P → A)
    (l : List Char) (h : l.count '|' ≠ 1) : ifaceOfLine parse ipNet l = none := by
  unfold ifaceOfLine
  split_ifs
  · rfl
  · split
    · rename_i f0 f1 heq
      have hl := Split_length l '|'
      rw [heq] at hl
      simp at hl
      omega
    · rfl

theorem ifaceOfLine_fewFields {P A : Type} (parse : List Char → Option P) (ipNet : P → A)
    (l : List Char) (h : fieldCount (l.takeWhile fun c => c != '|') < 8) :
    ifaceOfLine parse ipNet l = none := by
  unfold ifaceOfLine
  split_ifs
  · rfl
  · split
    · rename_i f0 f1 heq
      have hh := Split_head_takeWhile l '|'
      rw [heq] at hh
      simp only [List.head?_cons, Option.some.injEq] at hh
      cases hs : Sscanf f0 with
      | none => rfl
      | some sc =>
        have := Sscanf_fieldCount f0 sc hs
        rw [hh] at this
        omega
    · rfl

theorem left_no_newline (w : WireFields) (k : Nat → Nat) (rest : List Char) (h : w.ok)
    (hrest : '\n' ∉ rest) : '\n' ∉ w.left k rest := by
  obtain ⟨_, hns, hi, hm⟩ := h
  unfold WireFields.left
  simp only [List.mem_append, not_or]
  have hs : ∀ j, '\n' ∉ spaces j := fun j e => by
    have := mem_spaces _ _ e
    revert this; decide
  have hb : ∀ b, '\n' ∉ boolText b := fun b => by cases b <;> decide
  have hint : ∀ neg ds, intFieldOk neg ds → '\n' ∉ intText neg ds := by
    intro neg ds hok e
    unfold intText at e
    rcases List.mem_append.mp e with h1 | h1
    · cases neg <;> revert h1 <;> decide
    · have := (digit_mem _ (hok.2.1 _ h1)).2.1
      revert this; decide
  have hname : '\n' ∉ w.name := fun e => by
    have := (hns _ e).1
    revert this; decide
  exact ⟨hs _, hname, hs _, hint _ _ hi, hs _, hint _ _ hm, hs _, hb _, hs _, hb _, hs _, hb _,
    hs _, hb _, hs _, hb _, hrest⟩

theorem getInterfaces_ok {P A : Type} (parse : List Char → Option P) (ipNet : P → A)
    (h : Host) (a : App) (s : List Char)
    (hhost : h.callString ⟨a.appCtx, "getInterfacesAsString", "()Ljava/lang/String;", []⟩ =
      (String.mk s, none)) :
    (getInterfaces parse ipNet h a).out =
      .ret ((Split s '\n').filterMap (ifaceOfLine parse ipNet), none) := by
  unfold getInterfaces
  rw [hhost]
  simp [Run.bind, Run.call, Run.pure, ifacesOfString, foldl_appendIfSome]

theorem flags_bits : ∀ b1 b2 b3 b4 b5 : Bool,
    (flagsOf b1 b2 b3 b4 b5).testBit 0 = b1 ∧ (flagsOf b1 b2 b3 b4 b5).testBit 1 = b2 ∧
      (flagsOf b1 b2 b3 b4 b5).testBit 2 = b3 ∧ (flagsOf b1 b2 b3 b4 b5).testBit 3 = b4 ∧
      (flagsOf b1 b2 b3 b4 b5).testBit 4 = b5 ∧ flagsOf b1 b2 b3 b4 b5 < 32 := by
  decide

/-- C2: a line with exactly one `|` whose left part is the eight space-separated
fields (a name, a decimal index, a decimal mtu, five booleans) gives exactly
one record, between the records of the lines before and after it: name, index
and mtu are those of the fields, the flag word has exactly the bits of the
booleans that are true, and the addresses are those of the space-separated
tokens after `|` that parse as prefixes, in order (the others are dropped,
the record stays). -/
theorem getInterfaces_wellformed_line {P A : Type} (parse : List Char → Option P)
    (ipNet : P → A) (hp : parse [] = none) (h : Host) (a : App) (w : WireFields)
    (k : Nat → Nat) (right : List Char) (before after : List (List Char)) (hw : w.ok)
    (hbar : '|' ∉ right) (hnl : ∀ l ∈ before ++ right :: after, '\n' ∉ l)
    (hhost : h.callString ⟨a.appCtx, "getInterfacesAsString", "()Ljava/lang/String;", []⟩ =
      (String.mk (joinLines (before ++ (w.left k (spaces (k 8)) ++ '|' :: right) :: after)),
        none)) :
    (getInterfaces parse ipNet h a).out =
        .ret (before.filterMap (ifaceOfLine parse ipNet) ++
          ({ Name := w.name
             Index := intValue w.indexNeg w.indexDigits
             MTU := intValue w.mtuNeg w.mtuDigits
             Flags := w.flags
             AltAddrs := ((spaceTokens right).filterMap parse).map ipNet } : Interface A) ::
          after.filterMap (ifaceOfLine parse ipNet), none) ∧
      (w.flags.testBit 0 = w.up ∧ w.flags.testBit 1 = w.broadcast ∧
        w.flags.testBit 2 = w.loopback ∧ w.flags.testBit 3 = w.pointToPoint ∧
        w.flags.testBit 4 = w.multicast ∧ w.flags < 32) := by
  have hsp : '|' ∉ spaces (k 8) := fun e => by
    have := mem_spaces _ _ e
    revert this; decide
  have hspn : '\n' ∉ spaces (k 8) := fun e => by
    have := mem_spaces _ _ e
    revert this; decide
  have hright : '\n' ∉ right := hnl right (by simp)
  have hline := ifaceOfLine_wellformed parse ipNet hp w k (spaces (k 8)) right hw hsp hbar hright
  have hlines : ∀ l ∈ before ++ (w.left k (spaces (k 8)) ++ '|' :: right) :: after, '\n' ∉ l := by
    intro l hl
    rcases List.mem_append.mp hl with h1 | h1
    · exact hnl l (List.mem_append_left _ h1)
    · rcases List.mem_cons.mp h1 with h2 | h2
      · subst h2
        intro e
        rcases List.mem_append.mp e with h3 | h3
        · exact left_no_newline w k _ hw hspn h3
        · rcases List.mem_cons.mp h3 with h4 | h4
          · revert h4; decide
          · exact hright h4
      · exact hnl l (List.mem_append_right _ (List.mem_cons_of_mem _ h2))
  constructor
  · rw [getInterfaces_ok parse ipNet h a _ hhost, Split_joinLines _ (by simp) hlines,
      List.filterMap_append, List.filterMap_cons, hline]
    rfl
  · rw [← flagsOf_eq w]
    exact flags_bits _ _ _ _ _

/-- C2 at the spec's example line, between a comment line and a blank line. -/
theorem getInterfaces_wellformed_line_witness :
    (wlan0Fields.left wlan0Spacing (spaces (wlan0Spacing 8)) ++ '|' :: wlan0Right = wlan0Line) ∧
      (getInterfaces sampleParseIPPrefix id
        (Host.withInterfaces (joinLines ([['#']] ++
          (wlan0Fields.left wlan0Spacing (spaces (wlan0Spacing 8)) ++ '|' :: wlan0Right) :: [[]])))
        ⟨1, none, none, none⟩).out =
        .ret ([⟨['w', 'l', 'a', 'n', '0'], 30, 1500, 19,
          [['f', 'e', '8', '0', ':', ':', '1', '/', '6', '4'],
            ['1', '0', '.', '0', '.', '0', '.', '1', '/', '2', '4']]⟩], none) :=
  ⟨by decide,
    (getInterfaces_wellformed_line sampleParseIPPrefix id (by decide)
      (Host.withInterfaces (joinLines ([['#']] ++
        (wlan0Fields.left wlan0Spacing (spaces (wlan0Spacing 8)) ++ '|' :: wlan0Right) :: [[]])))
      ⟨1, none, none, none⟩ wlan0Fields wlan0Spacing wlan0Right [['#']] [[]]
      (by unfold WireFields.ok intFieldOk; decide) (by decide) (by decide) rfl).1.trans
      (by decide)⟩

/-- C3 as stated fails: a line whose left part has nine fields, one too many, still
gives a record; `Sscanf` does not look at what follows the eighth field. -/
theorem getInterfaces_extra_field_example :
    fieldCount "wlan0 30 1500 true true false false true extra ".toList = 9 ∧
      (getInterfaces sampleParseIPPrefix id
        (Host.withInterfaces
          "wlan0 30 1500 true true false false true extra | 10.0.0.1/24".toList)
        ⟨1, none, none, none⟩).out =
        .ret ([⟨['w', 'l', 'a', 'n', '0'], 30, 1500, 19,
          [['1', '0', '.', '0', '.', '0', '.', '1', '/', '2', '4']]⟩], none) := by
  decide

/-- C3, amended: for every interface string the host returns successfully,
`getInterfaces` returns a nil error and the records of the lines in input
order, one or none for each line.  A blank line, a line that does not have
exactly one `|`, and a line whose part before the `|` has fewer than eight
white-space separated fields give no record.  A line whose left part starts
with the eight well-formed fields gives its record, also when more text (a
ninth field, say) stands between the eighth field and the `|`. -/
theorem getInterfaces_skips_malformed {P A : Type} (parse : List Char → Option P)
    (ipNet : P → A) (h : Host) (a : App) (s : List Char)
    (hhost : h.callString ⟨a.appCtx, "getInterfacesAsString", "()Ljava/lang/String;", []⟩ =
      (String.mk s, none)) :
    (getInterfaces parse ipNet h a).out =
        .ret ((Split s '\n').filterMap (ifaceOfLine parse ipNet), none) ∧
      (∀ ls : List (List Char), ls ≠ [] → (∀ l ∈ ls, '\n' ∉ l) →
        Split (joinLines ls) '\n' = ls) ∧
      (∀ line : List Char,
        ((∀ c ∈ line, isSpace c = true) ∨ line.count '|' ≠ 1 ∨
          fieldCount (line.takeWhile fun c => c != '|') < 8) →
        ifaceOfLine parse ipNet line = none) ∧
      (parse [] = none → ∀ (w : WireFields) (k : Nat → Nat) (rest right : List Char),
        w.ok → '|' ∉ rest → '|' ∉ right → '\n' ∉ right →
        ifaceOfLine parse ipNet (w.left k rest ++ '|' :: right) =
          some (w.record parse ipNet right)) := by
  refine ⟨getInterfaces_ok parse ipNet h a s hhost, Split_joinLines, ?_, ?_⟩
  · rintro line (hb | hb | hb)
    · exact ifaceOfLine_blank parse ipNet line hb
    · exact ifaceOfLine_bars parse ipNet line hb
    · exact ifaceOfLine_fewFields parse ipNet line hb
  · intro hp w k rest right hw hrest hbar hnl
    exact ifaceOfLine_wellformed parse ipNet hp w k rest right hw hrest hbar hnl

/-- C3, amended, on a string with a line of seven fields, a blank line, a line
without `|`, a line with two `|`, and one good line. -/
theorem getInterfaces_skips_malformed_witness :
    (getInterfaces sampleParseIPPrefix id (Host.withInterfaces malformedSample)
        ⟨1, none, none, none⟩).out =
      .ret ((Split malformedSample '\n').filterMap (ifaceOfLine sampleParseIPPrefix id), none) ∧
    (Split malformedSample '\n').filterMap (ifaceOfLine sampleParseIPPrefix id) =
      [⟨['l', 'o'], 1, 65536, 5, [['1', '2', '7', '.', '0', '.', '0', '.', '1', '/', '8']]⟩] :=
  ⟨(getInterfaces_skips_malformed sampleParseIPPrefix id (Host.withInterfaces malformedSample)
      ⟨1, none, none, none⟩ malformedSample rfl).1, by decide⟩

end Tailscale
